import Mathlib

set_option allowUnsafeReducibility true

attribute [semireducible] Rat.add Rat.mul Rat.inv Rat.sub

/-!
Verification development for the Package-Routing-System repository
(`src/main.py`).  The Python program is shallowly embedded: times are
measured in hours as rationals (the source uses `datetime` values and
adds `timedelta(seconds=(distance/rate)*3600)`, i.e. `distance/rate`
hours), distances are rationals (the source parses CSV strings to
floats), and the mutable global state (`my_hash_packages`, the two
pending pools, the trucks) is passed explicitly.  The package directory
`my_hash_packages` is abstracted as a total map `Nat → Package`; the
`ChainHashTable` class itself is embedded separately and proved to
implement exactly that key-value behaviour.  The distance matrix
(`locations[i].distances[j]`) and the precomputed
`group_count_dictionary` come from CSV data files that are not part of
the source tree, so they are parameters (`Env`) of the model.
-/

/-- Package record (class `Package` in `src/main.py`); only the fields the
routing engine reads or writes are kept (`address`/`city`/... are inert
display strings). -/
structure Package where
  id : Nat
  group : Nat
  req_truck : Nat
  time_available : ℚ
  time_pickup : ℚ
  time_delivered : ℚ
  loc_id : Nat
  deriving Repr, DecidableEq

/-- The package directory (`my_hash_packages`) viewed as a total map. -/
abbrev Store := Nat → Package

/-- Pointwise update of the package directory (what
`my_hash_packages.search(k).field = v` mutation amounts to). -/
def update_store (ps : Store) (key : Nat) (p : Package) : Store :=
  fun j => if j = key then p else ps j

/-- The data-file inputs of the program: the location distance matrix
(`locations[i].distances[j]` parsed to float) and the precomputed
`group_count_dictionary`. -/
structure Env where
  dist : Nat → Nat → ℚ
  group_count : Nat → Nat

/-- Truck record (class `Truck` in `src/main.py`). -/
structure Truck where
  truck_id : Nat
  packages : List Nat
  distance_traveled : ℚ
  location_id : Nat
  truck_time : ℚ
  rate : ℚ
  deriving Repr, DecidableEq

/-- `Truck.__init__`: empty manifest, odometer 0, at the hub, rate 18. -/
def mk_truck (truck_id : Nat) (truck_time : ℚ) : Truck :=
  { truck_id := truck_id, packages := [], distance_traveled := 0,
    location_id := 0, truck_time := truck_time, rate := 18 }

/-- Combined mutable state touched by the loading / delivery methods:
the truck and the shared package directory. -/
structure SimSt where
  truck : Truck
  store : Store

/-- `Truck.load_package`: set the package's pickup time to the truck's
clock and append its id to the manifest. -/
def load_package (s : SimSt) (package_id : Nat) : SimSt :=
  let loaded := s.store package_id
  { truck := { s.truck with packages := s.truck.packages ++ [package_id] },
    store := update_store s.store package_id
      { loaded with time_pickup := s.truck.truck_time } }

/-- The inner group-admission scan of `Truck.load_truck`: re-scan the
priority pool and load every package whose group id matches. -/
def load_group_pass (prio : List Nat) (group_id : Nat) (s : SimSt) : SimSt :=
  prio.foldl
    (fun s' pack_id =>
      if (s'.store pack_id).group = group_id then load_package s' pack_id else s')
    s

/-- One iteration of the priority loop of `Truck.load_truck`.  The
Python `break` on a full manifest is modelled by skipping: once the
manifest length is 16 no later iteration changes the state, which is
observationally identical to breaking out of the loop. -/
def load_priority_step (env : Env) (prio : List Nat) (s : SimSt) (p_id : Nat) : SimSt :=
  if s.truck.packages.length = 16 then s
  else if p_id ∈ s.truck.packages then s
  else
    let package := s.store p_id
    if package.req_truck = s.truck.truck_id ∨ package.req_truck = 0 then
      if package.time_available ≤ s.truck.truck_time then
        if package.group = 0 then load_package s p_id
        else if s.truck.packages.length + env.group_count package.group ≤ 16 then
          load_group_pass prio package.group s
        else s
      else s
    else s

/-- One iteration of the non-priority loop of `Truck.load_truck`
(note: the source checks neither `req_truck` nor membership in the
manifest here, and loads `package.id`, not the loop variable). -/
def load_nonpriority_step (s : SimSt) (p_id : Nat) : SimSt :=
  if s.truck.packages.length = 16 then s
  else
    let package := s.store p_id
    if package.time_available ≤ s.truck.truck_time then load_package s package.id
    else s

/-- `Truck.load_truck`: the priority scan followed by the non-priority
scan. -/
def load_truck (env : Env) (s : SimSt) (prio nonprio : List Nat) : SimSt :=
  nonprio.foldl load_nonpriority_step (prio.foldl (load_priority_step env prio) s)

/-- The scanning loop of `Truck.find_shortest_distance`, carrying the
running minimum (initially 100) and best package id (initially -1). -/
def fsd_aux (env : Env) (ps : Store) (loc : Nat) :
    List Nat → ℚ → Int → Int
  | [], _, best => best
  | p :: rest, min_distance, best =>
    let d := env.dist loc (ps p).loc_id
    if d < min_distance then fsd_aux env ps loc rest d (p : Int)
    else fsd_aux env ps loc rest min_distance best

/-- `Truck.find_shortest_distance`. -/
def find_shortest_distance (env : Env) (t : Truck) (ps : Store) : Int :=
  fsd_aux env ps t.location_id t.packages 100 (-1)

/-- `Truck.increment_time_and_distance`: advance clock by
`distance/rate` hours, odometer by `distance`, and move to the
package's destination. -/
def increment_time_and_distance (env : Env) (t : Truck) (ps : Store)
    (package_id : Nat) : Truck :=
  let package := ps package_id
  let distance := env.dist t.location_id package.loc_id
  { t with truck_time := t.truck_time + distance / t.rate,
           distance_traveled := t.distance_traveled + distance,
           location_id := package.loc_id }

/-- `Truck.deliver_package`: the source first writes
`time_delivered = self.truck_time`, then calls
`increment_time_and_distance`, then removes the id from the manifest
(`list.remove` drops the first occurrence). -/
def deliver_package (env : Env) (s : SimSt) (package_id : Nat) : SimSt :=
  let delivered := s.store package_id
  let store' := update_store s.store package_id
    { delivered with time_delivered := s.truck.truck_time }
  let t' := increment_time_and_distance env s.truck store' package_id
  { truck := { t' with packages := t'.packages.erase package_id },
    store := store' }

/-- `Truck.return_to_hub`. -/
def return_to_hub (env : Env) (t : Truck) : Truck :=
  let distance := env.dist t.location_id 0
  { t with truck_time := t.truck_time + distance / t.rate,
           distance_traveled := t.distance_traveled + distance,
           location_id := 0 }

/-- State of one truck's turn inside `route_packages`, together with the
shared pools and directory.  `log` is observational instrumentation: it
records each `deliver_package` call as a pair
(package id, id of the truck whose method ran), so that "the delivering
vehicle" of a package can be stated. -/
structure TruckRun where
  truck : Truck
  prio : List Nat
  nonprio : List Nat
  store : Store
  log : List (Nat × Nat)

/-- The inner `while truck.packages` loop of `route_packages`: pick the
aboard package nearest the truck, remove it from whichever pool still
holds it, and deliver it.  `fuel` bounds the iteration count; a negative
`find_shortest_distance` result makes the Python program crash
(`search(-1)` yields `None` and the next attribute access raises), which
is modelled as `none`. -/
def deliver_all (env : Env) : Nat → TruckRun → Option TruckRun
  | 0, _ => none
  | fuel + 1, r =>
    if r.truck.packages = [] then some r
    else
      let chosen := find_shortest_distance env r.truck r.store
      if chosen < 0 then none
      else
        let package_id := chosen.toNat
        let prio' := if package_id ∈ r.prio then r.prio.erase package_id else r.prio
        let nonprio' :=
          if package_id ∈ r.prio then r.nonprio
          else if package_id ∈ r.nonprio then r.nonprio.erase package_id
          else r.nonprio
        let s' := deliver_package env ⟨r.truck, r.store⟩ package_id
        deliver_all env fuel
          ⟨s'.truck, prio', nonprio', s'.store, r.log ++ [(package_id, r.truck.truck_id)]⟩

/-- One truck's turn in a pass of `route_packages`:
`load_truck`, drain via the inner delivery loop, `return_to_hub`. -/
def truck_turn (env : Env) (fuel : Nat) (r : TruckRun) : Option TruckRun :=
  let s := load_truck env ⟨r.truck, r.store⟩ r.prio r.nonprio
  match deliver_all env fuel ⟨s.truck, r.prio, r.nonprio, s.store, r.log⟩ with
  | none => none
  | some r' => some { r' with truck := return_to_hub env r'.truck }

/-- Whole-fleet state of `route_packages`. -/
structure FleetSt where
  trucks : List Truck
  prio : List Nat
  nonprio : List Nat
  store : Store
  log : List (Nat × Nat)

/-- The `for truck in trucks` pass inside `route_packages`. -/
def route_pass (env : Env) (fuel : Nat) :
    List Truck → List Nat → List Nat → Store → List (Nat × Nat) → Option FleetSt
  | [], prio, nonprio, store, log => some ⟨[], prio, nonprio, store, log⟩
  | t :: ts, prio, nonprio, store, log =>
    match truck_turn env fuel ⟨t, prio, nonprio, store, log⟩ with
    | none => none
    | some r =>
      match route_pass env fuel ts r.prio r.nonprio r.store r.log with
      | none => none
      | some f => some ⟨r.truck :: f.trucks, f.prio, f.nonprio, f.store, f.log⟩

/-- `route_packages`: repeat fleet passes while either pending pool is
non-empty.  `fuel` bounds the number of passes (the source loop need not
terminate; a completed run is a `some` result, whose pools are empty). -/
def route_packages (env : Env) (fuel : Nat) (f : FleetSt) : Option FleetSt :=
  match fuel with
  | 0 => none
  | fuel + 1 =>
    if f.prio = [] ∧ f.nonprio = [] then some f
    else
      match route_pass env fuel f.trucks f.prio f.nonprio f.store f.log with
      | none => none
      | some f' => route_packages env fuel f'

/-- The four status labels (class `Statuses`). -/
def Statuses.UNAVAILABLE : String := "Package Unavailable"

def Statuses.DEPOT : String := "In Depot"

def Statuses.EN_ROUTE : String := "En Route"

def Statuses.DELIVERED : String := "Delivered"

/-- The status computation of the interactive query loop: the chain of
`if user_time < package.time_available / ... / else` comparisons. -/
def package_status (user_time : ℚ) (p : Package) : String :=
  if user_time < p.time_available then Statuses.UNAVAILABLE
  else if user_time < p.time_pickup then Statuses.DEPOT
  else if user_time < p.time_delivered then Statuses.EN_ROUTE
  else Statuses.DELIVERED

/-- The Option-2 package-id prompt: the source re-prompts
`while user_package_id < 1 or user_package_id > (num_packages + 1)`, so
an entered integer is accepted exactly when that condition is false. -/
def option2_accepts (n : Int) (num_packages : Nat) : Bool :=
  !(n < 1 || n > (num_packages : Int) + 1)

/-- The chaining hash table (class `ChainHashTable`), keys specialised to
the `int` package ids actually used (for which Python's `hash` is the
identity), so the bucket of `key` is `key % len(table)`. -/
structure ChainHashTable (α : Type) where
  table : List (List (Nat × α))

/-- `ChainHashTable.__init__`. -/
def mk_chain_hash_table (α : Type) (initial_capacity : Nat) : ChainHashTable α :=
  ⟨List.replicate initial_capacity []⟩

/-- The bucket scan of `ChainHashTable.insert`: overwrite the value of
the first pair with a matching key, else append the new pair. -/
def bucket_list_insert (key : Nat) (item : α) :
    List (Nat × α) → List (Nat × α)
  | [] => [(key, item)]
  | kv :: rest =>
    if kv.1 = key then (key, item) :: rest
    else kv :: bucket_list_insert key item rest

/-- `ChainHashTable.insert`. -/
def ChainHashTable.insert (t : ChainHashTable α) (key : Nat) (item : α) :
    ChainHashTable α :=
  let bucket := key % t.table.length
  ⟨t.table.set bucket (bucket_list_insert key item (t.table.getD bucket []))⟩

/-- The bucket scan of `ChainHashTable.search`. -/
def bucket_list_search (key : Nat) : List (Nat × α) → Option α
  | [] => none
  | kv :: rest => if kv.1 = key then some kv.2 else bucket_list_search key rest

/-- `ChainHashTable.search`. -/
def ChainHashTable.search (t : ChainHashTable α) (key : Nat) : Option α :=
  bucket_list_search key (t.table.getD (key % t.table.length) [])

/-! ### Basic lemmas about the primitive state updates -/

theorem update_store_same (ps : Store) (k : Nat) (p : Package) :
    update_store ps k p k = p := by
  simp [update_store]

theorem update_store_other (ps : Store) (k : Nat) (p : Package) (j : Nat)
    (h : j ≠ k) : update_store ps k p j = ps j := by
  simp [update_store, h]

theorem load_package_packages (s : SimSt) (pid : Nat) :
    (load_package s pid).truck.packages = s.truck.packages ++ [pid] := rfl

theorem load_package_truck_time (s : SimSt) (pid : Nat) :
    (load_package s pid).truck.truck_time = s.truck.truck_time := rfl

theorem load_package_truck_id (s : SimSt) (pid : Nat) :
    (load_package s pid).truck.truck_id = s.truck.truck_id := rfl

theorem load_package_rate (s : SimSt) (pid : Nat) :
    (load_package s pid).truck.rate = s.truck.rate := rfl

theorem load_package_location_id (s : SimSt) (pid : Nat) :
    (load_package s pid).truck.location_id = s.truck.location_id := rfl

theorem load_package_distance_traveled (s : SimSt) (pid : Nat) :
    (load_package s pid).truck.distance_traveled = s.truck.distance_traveled := rfl

theorem load_package_store (s : SimSt) (pid q : Nat) :
    (load_package s pid).store q =
      if q = pid then { s.store pid with time_pickup := s.truck.truck_time }
      else s.store q := rfl

theorem load_package_store_id (s : SimSt) (pid q : Nat) :
    ((load_package s pid).store q).id = (s.store q).id := by
  rw [load_package_store]; split
  · next h => rw [h]
  · rfl

theorem load_package_store_group (s : SimSt) (pid q : Nat) :
    ((load_package s pid).store q).group = (s.store q).group := by
  rw [load_package_store]; split
  · next h => rw [h]
  · rfl

theorem load_package_store_req_truck (s : SimSt) (pid q : Nat) :
    ((load_package s pid).store q).req_truck = (s.store q).req_truck := by
  rw [load_package_store]; split
  · next h => rw [h]
  · rfl

theorem load_package_store_time_available (s : SimSt) (pid q : Nat) :
    ((load_package s pid).store q).time_available = (s.store q).time_available := by
  rw [load_package_store]; split
  · next h => rw [h]
  · rfl

theorem load_package_store_loc_id (s : SimSt) (pid q : Nat) :
    ((load_package s pid).store q).loc_id = (s.store q).loc_id := by
  rw [load_package_store]; split
  · next h => rw [h]
  · rfl

theorem load_package_store_time_delivered (s : SimSt) (pid q : Nat) :
    ((load_package s pid).store q).time_delivered = (s.store q).time_delivered := by
  rw [load_package_store]; split
  · next h => rw [h]
  · rfl

theorem load_package_store_pickup_self (s : SimSt) (pid : Nat) :
    ((load_package s pid).store pid).time_pickup = s.truck.truck_time := by
  rw [load_package_store]; simp

theorem load_package_store_pickup_other (s : SimSt) (pid q : Nat) (h : q ≠ pid) :
    ((load_package s pid).store q).time_pickup = (s.store q).time_pickup := by
  rw [load_package_store]; simp [h]

theorem load_package_store_pickup_cases (s : SimSt) (pid q : Nat) :
    ((load_package s pid).store q).time_pickup = s.truck.truck_time
      ∨ ((load_package s pid).store q).time_pickup = (s.store q).time_pickup := by
  by_cases h : q = pid
  · subst h; exact Or.inl (load_package_store_pickup_self s q)
  · exact Or.inr (load_package_store_pickup_other s pid q h)

/-- Generic invariant-propagation along a left fold. -/
theorem foldl_inv {α β : Type _} (f : α → β → α) (P : α → Prop)
    (h : ∀ a b, P a → P (f a b)) :
    ∀ (l : List β) (a : α), P a → P (l.foldl f a) := by
  intro l
  induction l with
  | nil => intro a ha; exact ha
  | cons hd tl ih => intro a ha; exact ih (f a hd) (h a hd ha)

/-- Invariant propagation along a left fold, where the step property is
only known for elements of the folded list. -/
theorem foldl_inv_mem {α β : Type _} (f : α → β → α) (P : α → Prop) :
    ∀ (l : List β), (∀ a b, b ∈ l → P a → P (f a b)) →
      ∀ (a : α), P a → P (l.foldl f a) := by
  intro l
  induction l with
  | nil => intro _ a ha; exact ha
  | cons hd tl ih =>
    intro h a ha
    exact ih (fun a' b hb ha' => h a' b (List.mem_cons_of_mem hd hb) ha')
      (f a hd) (h a hd (List.mem_cons_self hd tl) ha)

/-! ### Effects of `deliver_package` -/

theorem deliver_package_truck_time (env : Env) (s : SimSt) (pid : Nat) :
    (deliver_package env s pid).truck.truck_time
      = s.truck.truck_time
        + env.dist s.truck.location_id (s.store pid).loc_id / s.truck.rate := by
  simp [deliver_package, increment_time_and_distance, update_store]

theorem deliver_package_distance_traveled (env : Env) (s : SimSt) (pid : Nat) :
    (deliver_package env s pid).truck.distance_traveled
      = s.truck.distance_traveled
        + env.dist s.truck.location_id (s.store pid).loc_id := by
  simp [deliver_package, increment_time_and_distance, update_store]

theorem deliver_package_location_id (env : Env) (s : SimSt) (pid : Nat) :
    (deliver_package env s pid).truck.location_id = (s.store pid).loc_id := by
  simp [deliver_package, increment_time_and_distance, update_store]

theorem deliver_package_packages (env : Env) (s : SimSt) (pid : Nat) :
    (deliver_package env s pid).truck.packages = s.truck.packages.erase pid := rfl

theorem deliver_package_truck_id (env : Env) (s : SimSt) (pid : Nat) :
    (deliver_package env s pid).truck.truck_id = s.truck.truck_id := rfl

theorem deliver_package_rate (env : Env) (s : SimSt) (pid : Nat) :
    (deliver_package env s pid).truck.rate = s.truck.rate := rfl

theorem deliver_package_store (env : Env) (s : SimSt) (pid q : Nat) :
    (deliver_package env s pid).store q =
      if q = pid then { s.store pid with time_delivered := s.truck.truck_time }
      else s.store q := rfl

theorem deliver_package_store_id (env : Env) (s : SimSt) (pid q : Nat) :
    ((deliver_package env s pid).store q).id = (s.store q).id := by
  rw [deliver_package_store]; split
  · next h => rw [h]
  · rfl

theorem deliver_package_store_group (env : Env) (s : SimSt) (pid q : Nat) :
    ((deliver_package env s pid).store q).group = (s.store q).group := by
  rw [deliver_package_store]; split
  · next h => rw [h]
  · rfl

theorem deliver_package_store_req_truck (env : Env) (s : SimSt) (pid q : Nat) :
    ((deliver_package env s pid).store q).req_truck = (s.store q).req_truck := by
  rw [deliver_package_store]; split
  · next h => rw [h]
  · rfl

theorem deliver_package_store_time_available (env : Env) (s : SimSt) (pid q : Nat) :
    ((deliver_package env s pid).store q).time_available = (s.store q).time_available := by
  rw [deliver_package_store]; split
  · next h => rw [h]
  · rfl

theorem deliver_package_store_time_pickup (env : Env) (s : SimSt) (pid q : Nat) :
    ((deliver_package env s pid).store q).time_pickup = (s.store q).time_pickup := by
  rw [deliver_package_store]; split
  · next h => rw [h]
  · rfl

theorem deliver_package_store_loc_id (env : Env) (s : SimSt) (pid q : Nat) :
    ((deliver_package env s pid).store q).loc_id = (s.store q).loc_id := by
  rw [deliver_package_store]; split
  · next h => rw [h]
  · rfl

theorem deliver_package_store_delivered_self (env : Env) (s : SimSt) (pid : Nat) :
    ((deliver_package env s pid).store pid).time_delivered = s.truck.truck_time := by
  rw [deliver_package_store]; simp

theorem deliver_package_store_delivered_other (env : Env) (s : SimSt) (pid q : Nat)
    (h : q ≠ pid) :
    ((deliver_package env s pid).store q).time_delivered = (s.store q).time_delivered := by
  rw [deliver_package_store]; simp [h]

/-- C2 (amended): in `Truck.deliver_package`, the delivered timestamp is
set to the vehicle's clock as it stands at the START of the call, i.e.
*before* the leg to the destination is accounted; only afterwards are
clock, odometer and location advanced by that leg, and the package id is
removed from the manifest (first occurrence). -/
theorem c2_deliver_package_effects (env : Env) (s : SimSt) (package_id : Nat) :
    ((deliver_package env s package_id).store package_id).time_delivered
        = s.truck.truck_time
  ∧ (deliver_package env s package_id).truck.truck_time
        = s.truck.truck_time
          + env.dist s.truck.location_id (s.store package_id).loc_id / s.truck.rate
  ∧ (deliver_package env s package_id).truck.distance_traveled
        = s.truck.distance_traveled
          + env.dist s.truck.location_id (s.store package_id).loc_id
  ∧ (deliver_package env s package_id).truck.location_id = (s.store package_id).loc_id
  ∧ (deliver_package env s package_id).truck.packages
        = s.truck.packages.erase package_id :=
  ⟨deliver_package_store_delivered_self env s package_id,
   deliver_package_truck_time env s package_id,
   deliver_package_distance_traveled env s package_id,
   deliver_package_location_id env s package_id,
   deliver_package_packages env s package_id⟩

/-- Concrete instance for the C2 counterexample: one package aboard,
destination 18 miles away (one hour at rate 18), clock at 8. -/
def env_c2 : Env :=
  ⟨fun i j => if i = 0 ∧ j = 1 then 18 else 0, fun _ => 0⟩

def store_c2 : Store := fun n =>
  { id := n, group := 0, req_truck := 0, time_available := 8,
    time_pickup := 8, time_delivered := 0, loc_id := if n = 1 then 1 else 0 }

def sim_c2 : SimSt :=
  ⟨{ truck_id := 1, packages := [1], distance_traveled := 0,
     location_id := 0, truck_time := 8, rate := 18 }, store_c2⟩

/-- C2 (counterexample): the claim says the delivered timestamp equals
the clock *after* advancing by the leg (here 8 + 18/18 = 9); the code
records 8, the clock before the advance. -/
theorem c2_delivered_counterexample :
    ((deliver_package env_c2 sim_c2 1).store 1).time_delivered = 8
  ∧ (deliver_package env_c2 sim_c2 1).truck.truck_time = 9
  ∧ ((deliver_package env_c2 sim_c2 1).store 1).time_delivered
      ≠ sim_c2.truck.truck_time
        + env_c2.dist sim_c2.truck.location_id (sim_c2.store 1).loc_id
            / sim_c2.truck.rate :=
  ⟨by decide, by decide, by decide⟩

/-! ### C7: the interactive status computation -/

/-- C7 (amended): for a package whose timestamps are ordered
(available ≤ pickup ≤ delivered — which a completed run need not always
produce, see the C7 counterexample), the computed status label is
characterised exactly by the claimed four disjoint time ranges. -/
theorem c7_status_amended (user_time : ℚ) (p : Package)
    (h1 : p.time_available ≤ p.time_pickup)
    (h2 : p.time_pickup ≤ p.time_delivered) :
    (package_status user_time p = Statuses.UNAVAILABLE ↔
        user_time < p.time_available)
  ∧ (package_status user_time p = Statuses.DEPOT ↔
        p.time_available ≤ user_time ∧ user_time < p.time_pickup)
  ∧ (package_status user_time p = Statuses.EN_ROUTE ↔
        p.time_pickup ≤ user_time ∧ user_time < p.time_delivered)
  ∧ (package_status user_time p = Statuses.DELIVERED ↔
        p.time_delivered ≤ user_time) := by
  have d12 : Statuses.UNAVAILABLE ≠ Statuses.DEPOT := by decide
  have d13 : Statuses.UNAVAILABLE ≠ Statuses.EN_ROUTE := by decide
  have d14 : Statuses.UNAVAILABLE ≠ Statuses.DELIVERED := by decide
  have d23 : Statuses.DEPOT ≠ Statuses.EN_ROUTE := by decide
  have d24 : Statuses.DEPOT ≠ Statuses.DELIVERED := by decide
  have d34 : Statuses.EN_ROUTE ≠ Statuses.DELIVERED := by decide
  unfold package_status
  by_cases ha : user_time < p.time_available
  · rw [if_pos ha]
    refine ⟨⟨fun _ => ha, fun _ => rfl⟩, ?_, ?_, ?_⟩
    · exact ⟨fun h => absurd h d12, fun ⟨hav, _⟩ => absurd ha (not_lt.mpr hav)⟩
    · exact ⟨fun h => absurd h d13, fun ⟨hpu, _⟩ => absurd ha (by push_neg; linarith)⟩
    · exact ⟨fun h => absurd h d14, fun hq => absurd ha (by push_neg; linarith)⟩
  · rw [if_neg ha]
    push_neg at ha
    by_cases hb : user_time < p.time_pickup
    · rw [if_pos hb]
      refine ⟨?_, ⟨fun _ => ⟨ha, hb⟩, fun _ => rfl⟩, ?_, ?_⟩
      · exact ⟨fun h => absurd h d12.symm, fun hq => absurd hq (not_lt.mpr ha)⟩
      · exact ⟨fun h => absurd h d23, fun ⟨hpu, _⟩ => absurd hb (not_lt.mpr hpu)⟩
      · exact ⟨fun h => absurd h d24, fun hq => absurd hb (by push_neg; linarith)⟩
    · rw [if_neg hb]
      push_neg at hb
      by_cases hc : user_time < p.time_delivered
      · rw [if_pos hc]
        refine ⟨?_, ?_, ⟨fun _ => ⟨hb, hc⟩, fun _ => rfl⟩, ?_⟩
        · exact ⟨fun h => absurd h d13.symm, fun hq => absurd hq (not_lt.mpr ha)⟩
        · exact ⟨fun h => absurd h d23.symm, fun ⟨_, hq⟩ => absurd hq (not_lt.mpr hb)⟩
        · exact ⟨fun h => absurd h d34, fun hq => absurd hc (not_lt.mpr hq)⟩
      · rw [if_neg hc]
        push_neg at hc
        refine ⟨?_, ?_, ?_, ⟨fun _ => hc, fun _ => rfl⟩⟩
        · exact ⟨fun h => absurd h d14.symm, fun hq => absurd hq (not_lt.mpr ha)⟩
        · exact ⟨fun h => absurd h d24.symm, fun ⟨_, hq⟩ => absurd hq (not_lt.mpr hb)⟩
        · exact ⟨fun h => absurd h d34.symm, fun ⟨_, hq⟩ => absurd hq (not_lt.mpr hc)⟩

/-- The query-scenario package of the claim: available 8:00, picked up
8:00, delivered 9:15 (= 37/4 hours). -/
def package_c7 : Package :=
  { id := 1, group := 0, req_truck := 0, time_available := 8,
    time_pickup := 8, time_delivered := 37/4, loc_id := 0 }

/-- Witness for C7: the claim's own query scenario, obtained from
`c7_status_amended` at the concrete package (8:30 = 17/2, 7:59 = 479/60,
and two instants at/after 9:15). -/
theorem c7_status_amended_witness :
    package_status (17/2) package_c7 = Statuses.EN_ROUTE
  ∧ package_status (479/60) package_c7 = Statuses.UNAVAILABLE
  ∧ package_status (37/4) package_c7 = Statuses.DELIVERED
  ∧ package_status 10 package_c7 = Statuses.DELIVERED :=
  ⟨(c7_status_amended (17/2) package_c7 (by decide) (by decide)).2.2.1.mpr
      ⟨by decide, by decide⟩,
   (c7_status_amended (479/60) package_c7 (by decide) (by decide)).1.mpr (by decide),
   (c7_status_amended (37/4) package_c7 (by decide) (by decide)).2.2.2.mpr (by decide),
   (c7_status_amended 10 package_c7 (by decide) (by decide)).2.2.2.mpr (by decide)⟩

/-- A package with pickup before available (a shape the group-admission
path of `load_truck` really produces, see `c3_strict_chain_counterexample`):
available 10, picked up 8, delivered 11. -/
def package_c7x : Package :=
  { id := 2, group := 7, req_truck := 0, time_available := 10,
    time_pickup := 8, time_delivered := 11, loc_id := 0 }

/-- C7 (counterexample): at query time 9 the code prints "Package
Unavailable" although pickup ≤ 9 < delivered, so the claimed
"En Route iff pickup ≤ query < delivered" characterisation is false for
packages whose pickup precedes their available time. -/
theorem c7_status_counterexample :
    package_status 9 package_c7x = Statuses.UNAVAILABLE
  ∧ package_c7x.time_pickup ≤ 9
  ∧ (9 : ℚ) < package_c7x.time_delivered
  ∧ package_status 9 package_c7x ≠ Statuses.EN_ROUTE :=
  ⟨by decide, by decide, by decide, by decide⟩

/-! ### C8: the Option-2 package-id prompt -/

/-- C8: the re-prompt loop of the Option-2 package-id prompt accepts an
integer n iff 1 ≤ n ≤ num_packages + 1, hence it accepts the
out-of-range id num_packages + 1 (here 41 with 40 packages), contrary to
the claimed (and prompted) range 1..num_packages. -/
theorem c8_package_id_range_bug :
    (∀ (n : Int) (num_packages : Nat),
        option2_accepts n num_packages = true ↔
          1 ≤ n ∧ n ≤ (num_packages : Int) + 1)
  ∧ option2_accepts 41 40 = true
  ∧ ¬ ((41 : Int) ≤ (40 : Int)) := by
  refine ⟨fun n num_packages => ?_, by decide, by decide⟩
  simp only [option2_accepts, Bool.not_eq_true', Bool.or_eq_false_iff,
    decide_eq_false_iff_not, not_lt]

/-! ### C9: the chaining hash table -/

theorem table_getD_set_self {β : Type _} :
    ∀ (l : List β) (i : Nat) (x d : β), i < l.length →
      (l.set i x).getD i d = x := by
  intro l
  induction l with
  | nil => intro i x d h; simp at h
  | cons hd tl ih =>
    intro i x d h
    cases i with
    | zero => rfl
    | succ i => exact ih i x d (by simpa using h)

theorem table_getD_set_other {β : Type _} :
    ∀ (l : List β) (i j : Nat) (x d : β), i ≠ j →
      (l.set i x).getD j d = l.getD j d := by
  intro l
  induction l with
  | nil => intro i j x d _; rfl
  | cons hd tl ih =>
    intro i j x d h
    cases i with
    | zero =>
      cases j with
      | zero => exact absurd rfl h
      | succ j => rfl
    | succ i =>
      cases j with
      | zero => rfl
      | succ j => exact ih i j x d (fun he => h (by rw [he]))

theorem table_getD_replicate {β : Type _} :
    ∀ (n i : Nat) (x : β), (List.replicate n x).getD i x = x := by
  intro n
  induction n with
  | zero => intro i x; rfl
  | succ n ih =>
    intro i x
    cases i with
    | zero => rfl
    | succ i => exact ih i x

theorem bucket_list_search_insert_self {α : Type _} (key : Nat) (item : α) :
    ∀ b : List (Nat × α),
      bucket_list_search key (bucket_list_insert key item b) = some item := by
  intro b
  induction b with
  | nil => simp [bucket_list_insert, bucket_list_search]
  | cons kv rest ih =>
    by_cases h : kv.1 = key
    · simp [bucket_list_insert, bucket_list_search, h]
    · simp [bucket_list_insert, bucket_list_search, h, ih]

theorem bucket_list_search_insert_other {α : Type _} (key key2 : Nat) (item : α)
    (hne : key ≠ key2) :
    ∀ b : List (Nat × α),
      bucket_list_search key (bucket_list_insert key2 item b) =
        bucket_list_search key b := by
  intro b
  induction b with
  | nil => simp [bucket_list_insert, bucket_list_search, Ne.symm hne]
  | cons kv rest ih =>
    by_cases h : kv.1 = key2
    · simp [bucket_list_insert, bucket_list_search, h, Ne.symm hne]
    · simp [bucket_list_insert, bucket_list_search, h, ih]

theorem chain_insert_length {α : Type _} (t : ChainHashTable α) (key : Nat) (item : α) :
    (t.insert key item).table.length = t.table.length := by
  simp [ChainHashTable.insert]

theorem chain_search_insert_self {α : Type _} (t : ChainHashTable α) (key : Nat)
    (item : α) (h : 0 < t.table.length) :
    (t.insert key item).search key = some item := by
  unfold ChainHashTable.search ChainHashTable.insert
  simp only [List.length_set]
  rw [table_getD_set_self _ _ _ _ (Nat.mod_lt key h)]
  exact bucket_list_search_insert_self key item _

theorem chain_search_insert_other {α : Type _} (t : ChainHashTable α)
    (key key2 : Nat) (item : α) (hne : key ≠ key2) :
    (t.insert key2 item).search key = t.search key := by
  unfold ChainHashTable.search ChainHashTable.insert
  simp only [List.length_set]
  by_cases hb : key2 % t.table.length = key % t.table.length
  · rw [hb]
    by_cases h0 : 0 < t.table.length
    · rw [table_getD_set_self _ _ _ _ (Nat.mod_lt key h0), ← hb]
      exact bucket_list_search_insert_other key key2 item hne _
    · have hz : t.table = [] := by
        rw [← List.length_eq_zero]; exact Nat.eq_zero_of_not_pos h0
      rw [hz]
      simp [bucket_list_search_insert_other key key2 item hne]
  · rw [table_getD_set_other _ _ _ _ _ hb]

theorem chain_search_empty {α : Type _} (cap key : Nat) :
    (mk_chain_hash_table α cap).search key = none := by
  unfold ChainHashTable.search mk_chain_hash_table
  simp only [List.length_replicate]
  rw [table_getD_replicate]
  rfl

/-- C9: the `ChainHashTable` contract — after `insert key item`,
`search key` returns `item`; a later insert under the same key
overwrites; inserting a different key leaves `search key` unchanged; and
a freshly constructed table answers `none` for every key. -/
theorem c9_hash_table_contract {α : Type} (t : ChainHashTable α)
    (key key2 : Nat) (item item2 : α)
    (h : 0 < t.table.length) (hne : key2 ≠ key) :
    (t.insert key item).search key = some item
  ∧ ((t.insert key item).insert key item2).search key = some item2
  ∧ (t.insert key2 item2).search key = t.search key
  ∧ (mk_chain_hash_table α 10).search key = none := by
  refine ⟨chain_search_insert_self t key item h, ?_, ?_, chain_search_empty 10 key⟩
  · exact chain_search_insert_self (t.insert key item) key item2
      (by rw [chain_insert_length]; exact h)
  · exact chain_search_insert_other t key key2 item2 (Ne.symm hne)

/-- Witness for C9 at a concrete table: capacity 10, keys 3 and 13
(which collide in bucket 3), records 5 and 6. -/
theorem c9_hash_table_contract_witness :
    ((mk_chain_hash_table Nat 10).insert 3 5).search 3 = some 5
  ∧ (((mk_chain_hash_table Nat 10).insert 3 5).insert 3 6).search 3 = some 6
  ∧ ((mk_chain_hash_table Nat 10).insert 13 6).search 3 =
      (mk_chain_hash_table Nat 10).search 3
  ∧ (mk_chain_hash_table Nat 10).search 3 = none :=
  c9_hash_table_contract (mk_chain_hash_table Nat 10) 3 13 5 6
    (by decide) (by decide)

/-! ### Invariant propagation through the loading pass -/

/-- Any property preserved by `load_package` is preserved by the group
admission sub-loop. -/
theorem load_group_pass_pres (P : SimSt → Prop)
    (hP : ∀ s pid, P s → P (load_package s pid)) (prio : List Nat) (g : Nat) :
    ∀ s, P s → P (load_group_pass prio g s) := by
  intro s hs
  refine foldl_inv _ P ?_ prio s hs
  intro a b ha
  dsimp only
  split
  · exact hP a b ha
  · exact ha

/-- Any property preserved by `load_package` is preserved by the whole
loading pass `load_truck`. -/
theorem load_truck_pres (P : SimSt → Prop)
    (hP : ∀ s pid, P s → P (load_package s pid)) (env : Env)
    (prio nonprio : List Nat) :
    ∀ s, P s → P (load_truck env s prio nonprio) := by
  intro s hs
  unfold load_truck
  refine foldl_inv _ P ?_ nonprio _ (foldl_inv _ P ?_ prio s hs)
  · intro a b ha
    simp only [load_nonpriority_step]
    split
    · exact ha
    · split
      · exact hP a _ ha
      · exact ha
  · intro a b ha
    simp only [load_priority_step]
    split
    · exact ha
    · split
      · exact ha
      · split
        · split
          · split
            · exact hP a b ha
            · split
              · exact load_group_pass_pres P hP prio _ a ha
              · exact ha
          · exact ha
        · exact ha

/-- The loading pass never touches the truck's clock, id, rate,
location, or odometer. -/
theorem load_truck_truck_frame (env : Env) (s : SimSt) (prio nonprio : List Nat) :
    (load_truck env s prio nonprio).truck.truck_time = s.truck.truck_time
  ∧ (load_truck env s prio nonprio).truck.truck_id = s.truck.truck_id
  ∧ (load_truck env s prio nonprio).truck.rate = s.truck.rate
  ∧ (load_truck env s prio nonprio).truck.location_id = s.truck.location_id
  ∧ (load_truck env s prio nonprio).truck.distance_traveled
      = s.truck.distance_traveled := by
  refine load_truck_pres
    (fun x => x.truck.truck_time = s.truck.truck_time
      ∧ x.truck.truck_id = s.truck.truck_id
      ∧ x.truck.rate = s.truck.rate
      ∧ x.truck.location_id = s.truck.location_id
      ∧ x.truck.distance_traveled = s.truck.distance_traveled)
    ?_ env prio nonprio s ⟨rfl, rfl, rfl, rfl, rfl⟩
  intro x pid ⟨h1, h2, h3, h4, h5⟩
  exact ⟨h1, h2, h3, h4, h5⟩

/-- The loading pass never removes ids from the manifest: the original
manifest is an initial segment of the new one. -/
theorem load_truck_packages_extend (env : Env) (s : SimSt) (prio nonprio : List Nat) :
    ∃ tail, (load_truck env s prio nonprio).truck.packages
      = s.truck.packages ++ tail := by
  refine load_truck_pres
    (fun x => ∃ tail, x.truck.packages = s.truck.packages ++ tail)
    ?_ env prio nonprio s ⟨[], by simp⟩
  intro x pid ⟨tail, htail⟩
  exact ⟨tail ++ [pid], by rw [load_package_packages, htail, List.append_assoc]⟩

/-- The loading pass changes only `time_pickup` fields in the directory. -/
theorem load_truck_store_frame (env : Env) (s : SimSt) (prio nonprio : List Nat) :
    ∀ q, ((load_truck env s prio nonprio).store q).id = (s.store q).id
  ∧ ((load_truck env s prio nonprio).store q).group = (s.store q).group
  ∧ ((load_truck env s prio nonprio).store q).req_truck = (s.store q).req_truck
  ∧ ((load_truck env s prio nonprio).store q).time_available
      = (s.store q).time_available
  ∧ ((load_truck env s prio nonprio).store q).loc_id = (s.store q).loc_id
  ∧ ((load_truck env s prio nonprio).store q).time_delivered
      = (s.store q).time_delivered := by
  refine load_truck_pres
    (fun x => ∀ q, (x.store q).id = (s.store q).id
      ∧ (x.store q).group = (s.store q).group
      ∧ (x.store q).req_truck = (s.store q).req_truck
      ∧ (x.store q).time_available = (s.store q).time_available
      ∧ (x.store q).loc_id = (s.store q).loc_id
      ∧ (x.store q).time_delivered = (s.store q).time_delivered)
    ?_ env prio nonprio s (fun q => ⟨rfl, rfl, rfl, rfl, rfl, rfl⟩)
  intro x pid hx q
  obtain ⟨h1, h2, h3, h4, h5, h6⟩ := hx q
  exact ⟨(load_package_store_id x pid q).trans h1,
    (load_package_store_group x pid q).trans h2,
    (load_package_store_req_truck x pid q).trans h3,
    (load_package_store_time_available x pid q).trans h4,
    (load_package_store_loc_id x pid q).trans h5,
    (load_package_store_time_delivered x pid q).trans h6⟩

/-- Every id aboard after a loading pass was either already aboard or has
its pickup timestamp set to the (unchanged) clock of the vehicle. -/
theorem load_truck_pickup_provenance (env : Env) (s : SimSt) (prio nonprio : List Nat) :
    ∀ q ∈ (load_truck env s prio nonprio).truck.packages,
      q ∈ s.truck.packages
      ∨ ((load_truck env s prio nonprio).store q).time_pickup
          = s.truck.truck_time := by
  have := load_truck_pres
    (fun x => x.truck.truck_time = s.truck.truck_time
      ∧ ∀ q ∈ x.truck.packages,
          q ∈ s.truck.packages ∨ (x.store q).time_pickup = s.truck.truck_time)
    ?_ env prio nonprio s ⟨rfl, fun q hq => Or.inl hq⟩
  · exact this.2
  · intro x pid ⟨ht, hx⟩
    refine ⟨ht, fun q hq => ?_⟩
    rw [load_package_packages] at hq
    rcases List.mem_append.mp hq with hq | hq
    · rcases hx q hq with h | h
      · by_cases hqp : q = pid
        · subst hqp
          exact Or.inr (by rw [load_package_store_pickup_self, ht])
        · exact Or.inl h
      · by_cases hqp : q = pid
        · subst hqp
          exact Or.inr (by rw [load_package_store_pickup_self, ht])
        · exact Or.inr (by rw [load_package_store_pickup_other x pid q hqp]; exact h)
    · have hqp : q = pid := by simpa using hq
      subst hqp
      exact Or.inr (by rw [load_package_store_pickup_self, ht])

/-! ### C10: clock and odometer monotonicity -/

def env_c10 : Env := ⟨fun _ _ => 0, fun _ => 0⟩

def store_c10 : Store := fun n =>
  { id := n, group := 0, req_truck := 0, time_available := 0,
    time_pickup := 0, time_delivered := 0, loc_id := 0 }

def sim_c10 : SimSt := ⟨mk_truck 1 8, store_c10⟩

/-- C10: with a nonnegative distance table (and the nonnegative rate
every constructed truck has), each Truck operation leaves the clock and
the odometer at or above their previous values
(`find_shortest_distance` is a pure function of the state and mutates
nothing, so only the five mutating operations appear). -/
theorem c10_clock_odometer_monotone (env : Env) (s : SimSt)
    (package_id : Nat) (prio nonprio : List Nat)
    (hd : ∀ i j, 0 ≤ env.dist i j) (hr : 0 ≤ s.truck.rate) :
    (s.truck.truck_time ≤ (load_truck env s prio nonprio).truck.truck_time
      ∧ s.truck.distance_traveled
          ≤ (load_truck env s prio nonprio).truck.distance_traveled)
  ∧ (s.truck.truck_time ≤ (load_package s package_id).truck.truck_time
      ∧ s.truck.distance_traveled
          ≤ (load_package s package_id).truck.distance_traveled)
  ∧ (s.truck.truck_time
        ≤ (increment_time_and_distance env s.truck s.store package_id).truck_time
      ∧ s.truck.distance_traveled
          ≤ (increment_time_and_distance env s.truck s.store package_id).distance_traveled)
  ∧ (s.truck.truck_time ≤ (deliver_package env s package_id).truck.truck_time
      ∧ s.truck.distance_traveled
          ≤ (deliver_package env s package_id).truck.distance_traveled)
  ∧ (s.truck.truck_time ≤ (return_to_hub env s.truck).truck_time
      ∧ s.truck.distance_traveled
          ≤ (return_to_hub env s.truck).distance_traveled) := by
  obtain ⟨ht, _, _, _, hdist⟩ := load_truck_truck_frame env s prio nonprio
  refine ⟨⟨le_of_eq ht.symm, le_of_eq hdist.symm⟩,
    ⟨le_of_eq rfl, le_of_eq rfl⟩, ?_, ?_, ?_⟩
  · constructor
    · simp only [increment_time_and_distance]
      exact le_add_of_nonneg_right (div_nonneg (hd _ _) hr)
    · simp only [increment_time_and_distance]
      exact le_add_of_nonneg_right (hd _ _)
  · constructor
    · rw [deliver_package_truck_time]
      exact le_add_of_nonneg_right (div_nonneg (hd _ _) hr)
    · rw [deliver_package_distance_traveled]
      exact le_add_of_nonneg_right (hd _ _)
  · constructor
    · simp only [return_to_hub]
      exact le_add_of_nonneg_right (div_nonneg (hd _ _) hr)
    · simp only [return_to_hub]
      exact le_add_of_nonneg_right (hd _ _)

/-- Witness for C10 on a concrete all-zero distance table. -/
theorem c10_clock_odometer_monotone_witness :
    sim_c10.truck.truck_time
      ≤ (load_truck env_c10 sim_c10 [1] [2]).truck.truck_time
  ∧ sim_c10.truck.truck_time
      ≤ (deliver_package env_c10 sim_c10 1).truck.truck_time :=
  ⟨((c10_clock_odometer_monotone env_c10 sim_c10 1 [1] [2]
      (fun _ _ => le_refl 0) (by decide)).1).1,
   ((c10_clock_odometer_monotone env_c10 sim_c10 1 [1] [2]
      (fun _ _ => le_refl 0) (by decide)).2.2.2.1).1⟩

/-! ### C6: nearest-package selection -/

/-- Full characterisation of the scanning loop of
`find_shortest_distance`: either no scanned destination beats the
running minimum and the incoming best id is returned, or the returned id
is the first entry attaining the minimum scanned distance. -/
theorem fsd_aux_spec (env : Env) (ps : Store) (loc : Nat) :
    ∀ (l : List Nat) (min_distance : ℚ) (best : Int),
      (fsd_aux env ps loc l min_distance best = best
        ∧ ∀ x ∈ l, min_distance ≤ env.dist loc (ps x).loc_id)
    ∨ (∃ (l1 : List Nat) (q : Nat) (l2 : List Nat), l = l1 ++ q :: l2
        ∧ fsd_aux env ps loc l min_distance best = (q : Int)
        ∧ env.dist loc (ps q).loc_id < min_distance
        ∧ (∀ x ∈ l, env.dist loc (ps q).loc_id ≤ env.dist loc (ps x).loc_id)
        ∧ (∀ x ∈ l1, env.dist loc (ps q).loc_id < env.dist loc (ps x).loc_id)) := by
  intro l
  induction l with
  | nil =>
    intro min_distance best
    left
    exact ⟨rfl, by simp⟩
  | cons a rest ih =>
    intro min_distance best
    by_cases hlt : env.dist loc (ps a).loc_id < min_distance
    · have hstep : fsd_aux env ps loc (a :: rest) min_distance best
          = fsd_aux env ps loc rest (env.dist loc (ps a).loc_id) (a : Int) := by
        simp [fsd_aux, hlt]
      rcases ih (env.dist loc (ps a).loc_id) (a : Int) with
        ⟨heq, hall⟩ | ⟨l1, q, l2, hsplit, heq, hql, hmin, hfirst⟩
      · right
        refine ⟨[], a, rest, by simp, by rw [hstep, heq], hlt, ?_, by simp⟩
        intro x hx
        rcases List.mem_cons.mp hx with hx | hx
        · rw [hx]
        · exact hall x hx
      · right
        refine ⟨a :: l1, q, l2, by simp [hsplit], by rw [hstep, heq],
          hql.trans hlt, ?_, ?_⟩
        · intro x hx
          rcases List.mem_cons.mp hx with hx | hx
          · rw [hx]; exact le_of_lt hql
          · exact hmin x hx
        · intro x hx
          rcases List.mem_cons.mp hx with hx | hx
          · rw [hx]; exact hql
          · exact hfirst x hx
    · have hstep : fsd_aux env ps loc (a :: rest) min_distance best
          = fsd_aux env ps loc rest min_distance best := by
        simp [fsd_aux, hlt]
      rcases ih min_distance best with
        ⟨heq, hall⟩ | ⟨l1, q, l2, hsplit, heq, hql, hmin, hfirst⟩
      · left
        refine ⟨by rw [hstep, heq], ?_⟩
        intro x hx
        rcases List.mem_cons.mp hx with hx | hx
        · rw [hx]; exact not_lt.mp hlt
        · exact hall x hx
      · right
        have hqa : env.dist loc (ps q).loc_id < env.dist loc (ps a).loc_id :=
          lt_of_lt_of_le hql (not_lt.mp hlt)
        refine ⟨a :: l1, q, l2, by simp [hsplit], by rw [hstep, heq], hql, ?_, ?_⟩
        · intro x hx
          rcases List.mem_cons.mp hx with hx | hx
          · rw [hx]; exact le_of_lt hqa
          · exact hmin x hx
        · intro x hx
          rcases List.mem_cons.mp hx with hx | hx
          · rw [hx]; exact hqa
          · exact hfirst x hx

/-- C6 (amended): provided some aboard package's destination lies at
distance strictly below the 100-mile initialisation of the running
minimum, `find_shortest_distance` returns the first aboard id whose
destination distance is minimal (so in particular not the -1 sentinel);
with a non-empty manifest whose distances are all ≥ 100 the sentinel -1
escapes (see the counterexample). -/
theorem c6_find_shortest_amended (env : Env) (t : Truck) (ps : Store)
    (h : ∃ q ∈ t.packages, env.dist t.location_id (ps q).loc_id < 100) :
    ∃ (l1 : List Nat) (q : Nat) (l2 : List Nat), t.packages = l1 ++ q :: l2
      ∧ find_shortest_distance env t ps = (q : Int)
      ∧ 0 ≤ find_shortest_distance env t ps
      ∧ (∀ x ∈ t.packages,
          env.dist t.location_id (ps q).loc_id
            ≤ env.dist t.location_id (ps x).loc_id)
      ∧ (∀ x ∈ l1,
          env.dist t.location_id (ps q).loc_id
            < env.dist t.location_id (ps x).loc_id) := by
  rcases fsd_aux_spec env ps t.location_id t.packages 100 (-1) with
    ⟨_, hall⟩ | ⟨l1, q, l2, hsplit, heq, _, hmin, hfirst⟩
  · obtain ⟨q, hq, hlt⟩ := h
    exact absurd hlt (not_lt.mpr (hall q hq))
  · exact ⟨l1, q, l2, hsplit, heq,
      by rw [show find_shortest_distance env t ps = fsd_aux env ps t.location_id t.packages 100 (-1) from rfl, heq]; exact Int.natCast_nonneg q,
      hmin, hfirst⟩

def env_c6 : Env := ⟨fun i j => if i = 0 ∧ j = 1 then 100 else 0, fun _ => 0⟩

def store_c6 : Store := fun n =>
  { id := n, group := 0, req_truck := 0, time_available := 8,
    time_pickup := 8, time_delivered := 0, loc_id := if n = 1 then 1 else 0 }

def truck_c6 : Truck :=
  { truck_id := 1, packages := [1], distance_traveled := 0,
    location_id := 0, truck_time := 8, rate := 18 }

/-- C6 (counterexample): with one package aboard whose destination is
100 miles away, the manifest is non-empty yet `find_shortest_distance`
returns the -1 sentinel, because the running minimum starts at 100 and
the update test is strict. -/
theorem c6_find_shortest_counterexample :
    find_shortest_distance env_c6 truck_c6 store_c6 = -1
  ∧ truck_c6.packages ≠ [] :=
  ⟨by decide, by decide⟩

def env_c6w : Env :=
  ⟨fun i j =>
    if i = 0 ∧ j = 1 then 5 else if i = 0 ∧ j = 2 then 3 else 0, fun _ => 0⟩

def store_c6w : Store := fun n =>
  { id := n, group := 0, req_truck := 0, time_available := 8,
    time_pickup := 8, time_delivered := 0,
    loc_id := if n = 1 then 1 else if n = 2 then 2 else 0 }

def truck_c6w : Truck :=
  { truck_id := 1, packages := [1, 2], distance_traveled := 0,
    location_id := 0, truck_time := 8, rate := 18 }

/-- Witness for C6 on a two-package manifest (distances 5 and 3: the
second, nearer package is selected). -/
theorem c6_find_shortest_amended_witness :
    (∃ q ∈ truck_c6w.packages,
        env_c6w.dist truck_c6w.location_id (store_c6w q).loc_id < 100)
  ∧ (∃ (l1 : List Nat) (q : Nat) (l2 : List Nat), truck_c6w.packages = l1 ++ q :: l2
      ∧ find_shortest_distance env_c6w truck_c6w store_c6w = (q : Int)
      ∧ 0 ≤ find_shortest_distance env_c6w truck_c6w store_c6w
      ∧ (∀ x ∈ truck_c6w.packages,
          env_c6w.dist truck_c6w.location_id (store_c6w q).loc_id
            ≤ env_c6w.dist truck_c6w.location_id (store_c6w x).loc_id)
      ∧ (∀ x ∈ l1,
          env_c6w.dist truck_c6w.location_id (store_c6w q).loc_id
            < env_c6w.dist truck_c6w.location_id (store_c6w x).loc_id)) :=
  ⟨⟨1, by decide, by decide⟩,
   c6_find_shortest_amended env_c6w truck_c6w store_c6w ⟨1, by decide, by decide⟩⟩

/-! ### C4: the 16-package capacity bound -/

theorem countP_ext {α : Type _} (p q : α → Bool) (h : ∀ x, p x = q x) :
    ∀ l : List α, l.countP p = l.countP q := by
  intro l
  induction l with
  | nil => rfl
  | cons a rest ih => rw [List.countP_cons, List.countP_cons, h a, ih]

/-- The group-admission sub-loop preserves group fields, only appends to
the manifest, and appends exactly one id per pool entry whose group
matches. -/
theorem load_group_pass_count (g : Nat) :
    ∀ (l : List Nat) (s : SimSt),
      (∀ q, ((load_group_pass l g s).store q).group = (s.store q).group)
    ∧ (load_group_pass l g s).truck.packages.length
        = s.truck.packages.length + l.countP (fun q => (s.store q).group == g)
    ∧ (∃ tl, (load_group_pass l g s).truck.packages
        = s.truck.packages ++ tl) := by
  intro l
  induction l with
  | nil =>
    intro s
    exact ⟨fun q => rfl, by simp [load_group_pass],
      ⟨[], by simp [load_group_pass]⟩⟩
  | cons a rest ih =>
    intro s
    by_cases hga : (s.store a).group = g
    · have hunf : load_group_pass (a :: rest) g s
          = load_group_pass rest g (load_package s a) := by
        simp [load_group_pass, hga]
      obtain ⟨ihg, ihl, tl, ihtl⟩ := ih (load_package s a)
      refine ⟨?_, ?_, ?_⟩
      · intro q
        rw [hunf, ihg q, load_package_store_group]
      · rw [hunf, ihl, load_package_packages, List.length_append,
          List.countP_cons,
          countP_ext _ (fun q => (s.store q).group == g)
            (fun x => by rw [load_package_store_group]) rest]
        simp [hga]
        omega
      · rw [hunf, ihtl, load_package_packages]
        exact ⟨[a] ++ tl, by rw [List.append_assoc]⟩
    · have hunf : load_group_pass (a :: rest) g s = load_group_pass rest g s := by
        simp [load_group_pass, hga]
      obtain ⟨ihg, ihl, tl, ihtl⟩ := ih s
      refine ⟨fun q => by rw [hunf, ihg q], ?_, ⟨tl, by rw [hunf, ihtl]⟩⟩
      rw [hunf, ihl, List.countP_cons]
      simp [hga]

/-- C4: a loading pass only appends to the manifest, and — provided the
precomputed group counts dominate the number of pool entries per group,
as holds for the counts computed by `load_package_data` — never pushes
the manifest beyond 16 ids; intermediate manifests are prefixes of the
final one, so the bound holds at every point of the pass. -/
theorem c4_manifest_capacity (env : Env) (s : SimSt) (prio nonprio : List Nat)
    (hlen : s.truck.packages.length ≤ 16)
    (hgc : ∀ g, g ≠ 0 →
      prio.countP (fun q => (s.store q).group == g) ≤ env.group_count g) :
    (∃ tail, (load_truck env s prio nonprio).truck.packages
        = s.truck.packages ++ tail)
  ∧ (load_truck env s prio nonprio).truck.packages.length ≤ 16 := by
  refine ⟨load_truck_packages_extend env s prio nonprio, ?_⟩
  have main : (∀ q, ((load_truck env s prio nonprio).store q).group
        = (s.store q).group)
      ∧ (load_truck env s prio nonprio).truck.packages.length ≤ 16 := by
    unfold load_truck
    have stepN : ∀ a b,
        ((∀ q, (a.store q).group = (s.store q).group)
          ∧ a.truck.packages.length ≤ 16) →
        ((∀ q, ((load_nonpriority_step a b).store q).group = (s.store q).group)
          ∧ (load_nonpriority_step a b).truck.packages.length ≤ 16) := by
      intro a b ⟨hg, hl⟩
      simp only [load_nonpriority_step]
      split
      next => exact ⟨hg, hl⟩
      next h16 =>
        split
        next =>
          refine ⟨fun q => (load_package_store_group a _ q).trans (hg q), ?_⟩
          rw [load_package_packages, List.length_append]
          simp only [List.length_singleton]
          omega
        next => exact ⟨hg, hl⟩
    have stepP : ∀ a b,
        ((∀ q, (a.store q).group = (s.store q).group)
          ∧ a.truck.packages.length ≤ 16) →
        ((∀ q, ((load_priority_step env prio a b).store q).group = (s.store q).group)
          ∧ (load_priority_step env prio a b).truck.packages.length ≤ 16) := by
      intro a b ⟨hg, hl⟩
      simp only [load_priority_step]
      split
      next => exact ⟨hg, hl⟩
      next h16 =>
        split
        next => exact ⟨hg, hl⟩
        next hmem =>
          split
          next hreq =>
            split
            next havail =>
              split
              next hg0 =>
                refine ⟨fun q => (load_package_store_group a b q).trans (hg q), ?_⟩
                rw [load_package_packages, List.length_append]
                simp only [List.length_singleton]
                omega
              next hg0 =>
                split
                next hcap =>
                  obtain ⟨hgp, hlen', _⟩ :=
                    load_group_pass_count (a.store b).group prio a
                  refine ⟨fun q => (hgp q).trans (hg q), ?_⟩
                  rw [hlen']
                  have hcnt : prio.countP
                        (fun q => (a.store q).group == (a.store b).group)
                      = prio.countP
                        (fun q => (s.store q).group == (a.store b).group) :=
                    countP_ext _ _ (fun x => by rw [hg x]) prio
                  have hne0 : (a.store b).group ≠ 0 := hg0
                  calc a.truck.packages.length
                        + prio.countP (fun q => (a.store q).group == (a.store b).group)
                      ≤ a.truck.packages.length + env.group_count (a.store b).group := by
                        rw [hcnt]
                        exact Nat.add_le_add_left (hgc _ hne0) _
                    _ ≤ 16 := hcap
                next hcap => exact ⟨hg, hl⟩
            next => exact ⟨hg, hl⟩
          next => exact ⟨hg, hl⟩
    exact foldl_inv _ _ stepN nonprio _
      (foldl_inv _ _ stepP prio s ⟨fun _ => rfl, hlen⟩)
  exact main.2

def env_c4 : Env :=
  ⟨fun _ _ => 0, fun g => if g = 7 then 2 else 0⟩

def store_c4 : Store := fun n =>
  { id := n, group := if n = 1 ∨ n = 2 then 7 else 0, req_truck := 0,
    time_available := 8, time_pickup := 0, time_delivered := 0, loc_id := 0 }

def sim_c4 : SimSt := ⟨mk_truck 1 8, store_c4⟩

/-- Witness for C4: a two-member group admitted atomically onto an empty
truck stays within the bound. -/
theorem c4_manifest_capacity_witness :
    (∃ tail, (load_truck env_c4 sim_c4 [1, 2] [3]).truck.packages
        = sim_c4.truck.packages ++ tail)
  ∧ (load_truck env_c4 sim_c4 [1, 2] [3]).truck.packages.length ≤ 16 :=
  c4_manifest_capacity env_c4 sim_c4 [1, 2] [3] (by decide)
    (by
      intro g hg
      by_cases h7 : g = 7
      · subst h7; decide
      · have e1 : (sim_c4.store 1).group = 7 := rfl
        have e2 : (sim_c4.store 2).group = 7 := rfl
        have h7' : ¬ (7 : Nat) = g := fun h => h7 h.symm
        simp [List.countP_cons, e1, e2, h7'])

/-! ### C1: required-vehicle affinity -/

/-- Core invariant for C1 (amended): a package with no group, a non-zero
required vehicle, and (as `load_package_data` guarantees) no presence of
affinity packages in the non-priority pool, is never loaded by a
mismatched vehicle's pass. -/
theorem load_truck_affinity (env : Env) (s : SimSt) (prio nonprio : List Nat)
    (pid : Nat)
    (hid : ∀ q, (s.store q).id = q)
    (hgrp : (s.store pid).group = 0)
    (hreq0 : (s.store pid).req_truck ≠ 0)
    (hnp : ∀ q ∈ nonprio, (s.store q).req_truck = 0)
    (hmem : pid ∉ s.truck.packages)
    (hneq : (s.store pid).req_truck ≠ s.truck.truck_id) :
    pid ∉ (load_truck env s prio nonprio).truck.packages := by
  set P : SimSt → Prop := fun x =>
    (∀ q, (x.store q).group = (s.store q).group
      ∧ (x.store q).req_truck = (s.store q).req_truck
      ∧ (x.store q).id = (s.store q).id)
    ∧ x.truck.truck_id = s.truck.truck_id
    ∧ pid ∉ x.truck.packages with hP
  have load_ne : ∀ (a : SimSt) (c : Nat), c ≠ pid → P a → P (load_package a c) := by
    intro a c hc ⟨hf, hti, hpid⟩
    refine ⟨fun q => ⟨(load_package_store_group a c q).trans (hf q).1,
      (load_package_store_req_truck a c q).trans (hf q).2.1,
      (load_package_store_id a c q).trans (hf q).2.2⟩, hti, ?_⟩
    rw [load_package_packages]
    simp only [List.mem_append, List.mem_singleton]
    rintro (h | h)
    · exact hpid h
    · exact hc h.symm
  have main : P (load_truck env s prio nonprio) := by
    unfold load_truck
    have stepP : ∀ a b, P a → P (load_priority_step env prio a b) := by
      intro a b ha
      simp only [load_priority_step]
      split
      next => exact ha
      next =>
        split
        next => exact ha
        next =>
          split
          next hguard =>
            split
            next =>
              split
              next hbg0 =>
                by_cases hbp : b = pid
                · subst hbp
                  obtain ⟨hf, hti, _⟩ := ha
                  rw [(hf b).2.1, hti] at hguard
                  rcases hguard with h | h
                  · exact absurd h hneq
                  · exact absurd h hreq0
                · exact load_ne a b hbp ha
              next hbg0 =>
                split
                next =>
                  refine foldl_inv _ P ?_ prio a ha
                  intro y c hy
                  dsimp only
                  split
                  next hcg =>
                    have hcp : c ≠ pid := by
                      intro hcpid
                      rw [hcpid, (hy.1 pid).1, hgrp] at hcg
                      exact hbg0 hcg.symm
                    exact load_ne y c hcp hy
                  next => exact hy
                next => exact ha
            next => exact ha
          next => exact ha
    have stepN : ∀ a b, b ∈ nonprio → P a → P (load_nonpriority_step a b) := by
      intro a b hbmem ha
      simp only [load_nonpriority_step]
      split
      next => exact ha
      next =>
        split
        next =>
          have hbid : (a.store b).id = b := ((ha.1 b).2.2).trans (hid b)
          rw [hbid]
          have hbp : b ≠ pid := by
            intro hbpid
            subst hbpid
            exact hreq0 (hnp b hbmem)
          exact load_ne a b hbp ha
        next => exact ha
    exact foldl_inv_mem _ P nonprio stepN _
      (foldl_inv _ P stepP prio s ⟨fun q => ⟨rfl, rfl, rfl⟩, rfl, hmem⟩)
  exact main.2.2

/-- C1 (amended): a package with non-zero required-vehicle id *and group
id 0* that a loading pass puts aboard is aboard the vehicle with exactly
that id (given the run invariants: the directory maps each id to a
record bearing it, and non-priority packages carry no affinity).  The
original claim is false for grouped packages: the group-admission
sub-loop loads every group member without re-checking `req_truck`
(counterexample `c1_req_truck_counterexample`). -/
theorem c1_req_truck_amended (env : Env) (s : SimSt) (prio nonprio : List Nat)
    (pid : Nat)
    (hid : ∀ q, (s.store q).id = q)
    (hgrp : (s.store pid).group = 0)
    (hreq0 : (s.store pid).req_truck ≠ 0)
    (hnp : ∀ q ∈ nonprio, (s.store q).req_truck = 0)
    (hmem : pid ∉ s.truck.packages)
    (hin : pid ∈ (load_truck env s prio nonprio).truck.packages) :
    (s.store pid).req_truck = s.truck.truck_id := by
  by_contra hneq
  exact load_truck_affinity env s prio nonprio pid hid hgrp hreq0 hnp hmem hneq hin

def env_c1 : Env := ⟨fun _ _ => 0, fun g => if g = 7 then 2 else 0⟩

def store_c1 : Store := fun n =>
  { id := n, group := if n = 1 ∨ n = 2 then 7 else 0,
    req_truck := if n = 2 then 2 else 0, time_available := 8,
    time_pickup := 0, time_delivered := 0, loc_id := 0 }

def sim_c1 : SimSt := ⟨mk_truck 1 8, store_c1⟩

/-- C1 (counterexample): package 2 requires vehicle 2, but because it
shares group 7 with package 1 (eligible on vehicle 1), vehicle 1's
loading pass admits the whole group and package 2 lands in vehicle 1's
manifest. -/
theorem c1_req_truck_counterexample :
    (store_c1 2).req_truck = 2
  ∧ sim_c1.truck.truck_id = 1
  ∧ 2 ∈ (load_truck env_c1 sim_c1 [1, 2] []).truck.packages :=
  ⟨by decide, by decide, by decide⟩

def env_c1w : Env := ⟨fun _ _ => 0, fun _ => 0⟩

def store_c1w : Store := fun n =>
  { id := n, group := 0, req_truck := if n = 1 then 1 else 0,
    time_available := 8, time_pickup := 0, time_delivered := 0, loc_id := 0 }

def sim_c1w : SimSt := ⟨mk_truck 1 8, store_c1w⟩

/-- Witness for C1 (amended): an ungrouped affinity-1 package loaded by
vehicle 1. -/
theorem c1_req_truck_amended_witness :
    1 ∈ (load_truck env_c1w sim_c1w [1] [2]).truck.packages
  ∧ (sim_c1w.store 1).req_truck = sim_c1w.truck.truck_id :=
  ⟨by decide,
   c1_req_truck_amended env_c1w sim_c1w [1] [2] 1 (fun q => rfl) (by decide)
     (by decide)
     (by
       intro q hq
       rw [List.mem_singleton] at hq
       subst hq
       decide)
     (by decide) (by decide)⟩

/-! ### C5: atomic group admission -/

/-- Full specification of the group-admission sub-loop: group/id fields
and the clock are untouched, the manifest only grows, pickup timestamps
already equal to the clock stay so, every pool entry of the group ends
aboard with pickup = clock, and every newly aboard id belongs to the
group. -/
theorem load_group_pass_full (g' : Nat) :
    ∀ (l : List Nat) (s₁ : SimSt),
      (∀ q, ((load_group_pass l g' s₁).store q).group = (s₁.store q).group
        ∧ ((load_group_pass l g' s₁).store q).id = (s₁.store q).id)
    ∧ (load_group_pass l g' s₁).truck.truck_time = s₁.truck.truck_time
    ∧ (∀ q, q ∈ s₁.truck.packages → q ∈ (load_group_pass l g' s₁).truck.packages)
    ∧ (∀ q, (s₁.store q).time_pickup = s₁.truck.truck_time →
        ((load_group_pass l g' s₁).store q).time_pickup = s₁.truck.truck_time)
    ∧ (∀ q ∈ l, (s₁.store q).group = g' →
        q ∈ (load_group_pass l g' s₁).truck.packages
        ∧ ((load_group_pass l g' s₁).store q).time_pickup = s₁.truck.truck_time)
    ∧ (∀ q, q ∈ (load_group_pass l g' s₁).truck.packages →
        q ∈ s₁.truck.packages ∨ (s₁.store q).group = g') := by
  intro l
  induction l with
  | nil =>
    intro s₁
    refine ⟨fun q => ⟨rfl, rfl⟩, rfl, fun q hq => hq, fun q hq => hq, ?_, ?_⟩
    · intro q hq
      simp at hq
    · intro q hq
      exact Or.inl hq
  | cons a rest ih =>
    intro s₁
    by_cases hga : (s₁.store a).group = g'
    · have hunf : load_group_pass (a :: rest) g' s₁
          = load_group_pass rest g' (load_package s₁ a) := by
        simp [load_group_pass, hga]
      set s₂ := load_package s₁ a with hs₂
      obtain ⟨ihf, iht, ihc, ihd, ihe, ihm⟩ := ih s₂
      have ht₂ : s₂.truck.truck_time = s₁.truck.truck_time := rfl
      refine ⟨?_, ?_, ?_, ?_, ?_, ?_⟩
      · intro q
        rw [hunf]
        exact ⟨(ihf q).1.trans (load_package_store_group s₁ a q),
          (ihf q).2.trans (load_package_store_id s₁ a q)⟩
      · rw [hunf, iht, ht₂]
      · intro q hq
        rw [hunf]
        refine ihc q ?_
        rw [hs₂, load_package_packages]
        exact List.mem_append_left _ hq
      · intro q hq
        rw [hunf]
        have hq₂ : (s₂.store q).time_pickup = s₂.truck.truck_time := by
          by_cases hqa : q = a
          · subst hqa
            rw [hs₂, load_package_store_pickup_self]
            rfl
          · rw [hs₂, load_package_store_pickup_other s₁ a q hqa]
            exact hq
        rw [← ht₂]
        exact ihd q hq₂
      · intro q hq hqg
        rw [hunf]
        rcases List.mem_cons.mp hq with hqa | hqrest
        · subst hqa
          constructor
          · refine ihc q ?_
            rw [hs₂, load_package_packages]
            exact List.mem_append_right _ (List.mem_singleton.mpr rfl)
          · have hq₂ : (s₂.store q).time_pickup = s₂.truck.truck_time := by
              rw [hs₂, load_package_store_pickup_self]
              rfl
            rw [← ht₂]
            exact ihd q hq₂
        · have hqg₂ : (s₂.store q).group = g' := by
            rw [hs₂, load_package_store_group]
            exact hqg
          obtain ⟨hin, hpk⟩ := ihe q hqrest hqg₂
          exact ⟨hin, by rw [← ht₂]; exact hpk⟩
      · intro q hq
        rw [hunf] at hq
        rcases ihm q hq with hq₂ | hq₂
        · rw [hs₂, load_package_packages] at hq₂
          rcases List.mem_append.mp hq₂ with h | h
          · exact Or.inl h
          · right
            rw [List.mem_singleton.mp h]
            exact hga
        · right
          rw [hs₂, load_package_store_group] at hq₂
          exact hq₂
    · have hunf : load_group_pass (a :: rest) g' s₁ = load_group_pass rest g' s₁ := by
        simp [load_group_pass, hga]
      obtain ⟨ihf, iht, ihc, ihd, ihe, ihm⟩ := ih s₁
      refine ⟨fun q => by rw [hunf]; exact ihf q, by rw [hunf]; exact iht,
        fun q hq => by rw [hunf]; exact ihc q hq,
        fun q hq => by rw [hunf]; exact ihd q hq, ?_,
        fun q hq => ihm q (by rw [← hunf]; exact hq)⟩
      intro q hq hqg
      rcases List.mem_cons.mp hq with hqa | hqrest
      · subst hqa
        exact absurd hqg hga
      · rw [hunf]
        exact ihe q hqrest hqg

/-- All-or-nothing admission: starting a pass with no member of group g
aboard, the pass either loads no member of g, or loads every member of g
present in the priority pool, each with pickup timestamp equal to the
(unchanged) clock. -/
theorem load_truck_group_atomic (env : Env) (s : SimSt) (prio nonprio : List Nat)
    (g : Nat)
    (hg : g ≠ 0)
    (hid : ∀ q, (s.store q).id = q)
    (hnp : ∀ q ∈ nonprio, (s.store q).group = 0)
    (hnone : ∀ q, (s.store q).group = g → q ∉ s.truck.packages) :
    (∀ q, (s.store q).group = g →
        q ∉ (load_truck env s prio nonprio).truck.packages)
  ∨ (∀ q ∈ prio, (s.store q).group = g →
        q ∈ (load_truck env s prio nonprio).truck.packages
        ∧ ((load_truck env s prio nonprio).store q).time_pickup
            = s.truck.truck_time) := by
  set P : SimSt → Prop := fun x =>
    (∀ q, (x.store q).group = (s.store q).group
      ∧ (x.store q).id = (s.store q).id)
    ∧ x.truck.truck_time = s.truck.truck_time
    ∧ ((∀ q, (s.store q).group = g → q ∉ x.truck.packages)
       ∨ (∀ q ∈ prio, (s.store q).group = g →
            q ∈ x.truck.packages
            ∧ (x.store q).time_pickup = s.truck.truck_time)) with hP
  have right_pres : ∀ (a : SimSt) (c : Nat),
      a.truck.truck_time = s.truck.truck_time →
      (∀ q ∈ prio, (s.store q).group = g →
        q ∈ a.truck.packages ∧ (a.store q).time_pickup = s.truck.truck_time) →
      (∀ q ∈ prio, (s.store q).group = g →
        q ∈ (load_package a c).truck.packages
        ∧ ((load_package a c).store q).time_pickup = s.truck.truck_time) := by
    intro a c hat hr q hqp hqg
    obtain ⟨hin, hpk⟩ := hr q hqp hqg
    refine ⟨by rw [load_package_packages]; exact List.mem_append_left _ hin, ?_⟩
    by_cases hqc : q = c
    · subst hqc
      rw [load_package_store_pickup_self]
      exact hat
    · rw [load_package_store_pickup_other a c q hqc]
      exact hpk
  have nonmember_load : ∀ (a : SimSt) (c : Nat),
      (s.store c).group ≠ g →
      (∀ q, (s.store q).group = g → q ∉ a.truck.packages) →
      (∀ q, (s.store q).group = g → q ∉ (load_package a c).truck.packages) := by
    intro a c hcg hl q hqg
    rw [load_package_packages]
    simp only [List.mem_append, List.mem_singleton]
    rintro (h | h)
    · exact hl q hqg h
    · rw [h] at hqg
      exact hcg hqg
  have main : P (load_truck env s prio nonprio) := by
    unfold load_truck
    have stepP : ∀ a b, P a → P (load_priority_step env prio a b) := by
      intro a b ha
      obtain ⟨haf, hat, had⟩ := ha
      simp only [load_priority_step]
      split
      next => exact ⟨haf, hat, had⟩
      next =>
        split
        next => exact ⟨haf, hat, had⟩
        next =>
          split
          next =>
            split
            next =>
              split
              next hbg0 =>
                refine ⟨fun q => ⟨(load_package_store_group a b q).trans (haf q).1,
                  (load_package_store_id a b q).trans (haf q).2⟩,
                  (load_package_truck_time a b).trans hat, ?_⟩
                rcases had with hl | hr
                · refine Or.inl (nonmember_load a b ?_ hl)
                  intro hbg
                  rw [← (haf b).1] at hbg
                  rw [hbg0] at hbg
                  exact hg hbg.symm
                · exact Or.inr (right_pres a b hat hr)
              next hbg0 =>
                split
                next =>
                  obtain ⟨hf2, ht2, hc2, hd2, he2, hm2⟩ :=
                    load_group_pass_full (a.store b).group prio a
                  refine ⟨fun q => ⟨(hf2 q).1.trans (haf q).1,
                    (hf2 q).2.trans (haf q).2⟩, ht2.trans hat, ?_⟩
                  by_cases hgg : (a.store b).group = g
                  · right
                    intro q hqp hqg
                    have hqga : (a.store q).group = (a.store b).group := by
                      rw [(haf q).1, hqg, ← hgg]
                    obtain ⟨hin, hpk⟩ := he2 q hqp hqga
                    exact ⟨hin, by rw [hpk]; exact hat⟩
                  · rcases had with hl | hr
                    · left
                      intro q hqg hqin
                      rcases hm2 q hqin with h | h
                      · exact hl q hqg h
                      · rw [(haf q).1, hqg] at h
                        exact hgg h.symm
                    · right
                      intro q hqp hqg
                      obtain ⟨hin, hpk⟩ := hr q hqp hqg
                      refine ⟨hc2 q hin, ?_⟩
                      have := hd2 q (by rw [hpk]; exact hat.symm)
                      rw [this]
                      exact hat
                next => exact ⟨haf, hat, had⟩
            next => exact ⟨haf, hat, had⟩
          next => exact ⟨haf, hat, had⟩
    have stepN : ∀ a b, b ∈ nonprio → P a → P (load_nonpriority_step a b) := by
      intro a b hbmem ha
      obtain ⟨haf, hat, had⟩ := ha
      simp only [load_nonpriority_step]
      split
      next => exact ⟨haf, hat, had⟩
      next =>
        split
        next =>
          have hbid : (a.store b).id = b := ((haf b).2).trans (hid b)
          rw [hbid]
          refine ⟨fun q => ⟨(load_package_store_group a b q).trans (haf q).1,
            (load_package_store_id a b q).trans (haf q).2⟩,
            (load_package_truck_time a b).trans hat, ?_⟩
          rcases had with hl | hr
          · refine Or.inl (nonmember_load a b ?_ hl)
            rw [hnp b hbmem]
            exact fun h => hg h.symm
          · exact Or.inr (right_pres a b hat hr)
        next => exact ⟨haf, hat, had⟩
    exact foldl_inv_mem _ P nonprio stepN _
      (foldl_inv _ P stepP prio s ⟨fun q => ⟨rfl, rfl⟩, rfl, Or.inl hnone⟩)
  exact main.2.2

/-- Capacity-blocked admission: if already at the start of the pass the
manifest size plus the precomputed group size exceeds 16, then (since
the manifest only ever grows during the pass) the capacity test fails at
every group-admission attempt and no member of the group is loaded. -/
theorem load_truck_group_blocked (env : Env) (s : SimSt) (prio nonprio : List Nat)
    (g : Nat)
    (hg : g ≠ 0)
    (hid : ∀ q, (s.store q).id = q)
    (hnp : ∀ q ∈ nonprio, (s.store q).group = 0)
    (hnone : ∀ q, (s.store q).group = g → q ∉ s.truck.packages)
    (hcap : 16 < s.truck.packages.length + env.group_count g) :
    ∀ q, (s.store q).group = g →
      q ∉ (load_truck env s prio nonprio).truck.packages := by
  set P : SimSt → Prop := fun x =>
    (∀ q, (x.store q).group = (s.store q).group
      ∧ (x.store q).id = (s.store q).id)
    ∧ s.truck.packages.length ≤ x.truck.packages.length
    ∧ (∀ q, (s.store q).group = g → q ∉ x.truck.packages) with hP
  have nonmember_load : ∀ (a : SimSt) (c : Nat),
      (s.store c).group ≠ g →
      (∀ q, (s.store q).group = g → q ∉ a.truck.packages) →
      (∀ q, (s.store q).group = g → q ∉ (load_package a c).truck.packages) := by
    intro a c hcg hl q hqg
    rw [load_package_packages]
    simp only [List.mem_append, List.mem_singleton]
    rintro (h | h)
    · exact hl q hqg h
    · rw [h] at hqg
      exact hcg hqg
  have len_load : ∀ (a : SimSt) (c : Nat),
      s.truck.packages.length ≤ a.truck.packages.length →
      s.truck.packages.length ≤ (load_package a c).truck.packages.length := by
    intro a c hle
    rw [load_package_packages, List.length_append]
    exact hle.trans (Nat.le_add_right _ _)
  have main : P (load_truck env s prio nonprio) := by
    unfold load_truck
    have stepP : ∀ a b, P a → P (load_priority_step env prio a b) := by
      intro a b ha
      obtain ⟨haf, hal, han⟩ := ha
      simp only [load_priority_step]
      split
      next => exact ⟨haf, hal, han⟩
      next =>
        split
        next => exact ⟨haf, hal, han⟩
        next =>
          split
          next =>
            split
            next =>
              split
              next hbg0 =>
                refine ⟨fun q => ⟨(load_package_store_group a b q).trans (haf q).1,
                  (load_package_store_id a b q).trans (haf q).2⟩,
                  len_load a b hal, nonmember_load a b ?_ han⟩
                intro hbg
                rw [← (haf b).1, hbg0] at hbg
                exact hg hbg.symm
              next hbg0 =>
                split
                next hcap2 =>
                  by_cases hgg : (a.store b).group = g
                  · rw [hgg] at hcap2
                    omega
                  · obtain ⟨hf2, _, _, _, _, hm2⟩ :=
                      load_group_pass_full (a.store b).group prio a
                    obtain ⟨_, hlen2, _⟩ :=
                      load_group_pass_count (a.store b).group prio a
                    refine ⟨fun q => ⟨(hf2 q).1.trans (haf q).1,
                      (hf2 q).2.trans (haf q).2⟩,
                      hal.trans (by rw [hlen2]; exact Nat.le_add_right _ _), ?_⟩
                    intro q hqg hqin
                    rcases hm2 q hqin with h | h
                    · exact han q hqg h
                    · rw [(haf q).1, hqg] at h
                      exact hgg h.symm
                next => exact ⟨haf, hal, han⟩
            next => exact ⟨haf, hal, han⟩
          next => exact ⟨haf, hal, han⟩
    have stepN : ∀ a b, b ∈ nonprio → P a → P (load_nonpriority_step a b) := by
      intro a b hbmem ha
      obtain ⟨haf, hal, han⟩ := ha
      simp only [load_nonpriority_step]
      split
      next => exact ⟨haf, hal, han⟩
      next =>
        split
        next =>
          have hbid : (a.store b).id = b := ((haf b).2).trans (hid b)
          rw [hbid]
          refine ⟨fun q => ⟨(load_package_store_group a b q).trans (haf q).1,
            (load_package_store_id a b q).trans (haf q).2⟩,
            len_load a b hal, nonmember_load a b ?_ han⟩
          rw [hnp b hbmem]
          exact fun h => hg h.symm
        next => exact ⟨haf, hal, han⟩
    exact foldl_inv_mem _ P nonprio stepN _
      (foldl_inv _ P stepP prio s ⟨fun q => ⟨rfl, rfl⟩, le_refl _, hnone⟩)
  exact main.2.2

/-- The inner delivery loop only appends to the delivery log, and every
id aboard at its start gets logged as delivered by this truck. -/
theorem deliver_all_log (env : Env) :
    ∀ (fuel : Nat) (r r' : TruckRun), deliver_all env fuel r = some r' →
      (∀ e ∈ r.log, e ∈ r'.log)
      ∧ (∀ q ∈ r.truck.packages, (q, r.truck.truck_id) ∈ r'.log) := by
  intro fuel
  induction fuel with
  | zero => intro r r' h; exact absurd h (by simp [deliver_all])
  | succ fuel ih =>
    intro r r' h
    rw [deliver_all] at h
    by_cases hemp : r.truck.packages = []
    · rw [if_pos hemp] at h
      cases h
      exact ⟨fun e he => he, fun q hq => by rw [hemp] at hq; cases hq⟩
    · rw [if_neg hemp] at h
      by_cases hneg : find_shortest_distance env r.truck r.store < 0
      · rw [if_pos hneg] at h
        cases h
      · rw [if_neg hneg] at h
        obtain ⟨hmono, hcompl⟩ := ih _ r' h
        simp only [deliver_package_truck_id] at hcompl
        constructor
        · intro e he
          exact hmono e (List.mem_append_left _ he)
        · intro q hq
          by_cases hqp : q = (find_shortest_distance env r.truck r.store).toNat
          · subst hqp
            exact hmono _ (List.mem_append_right _ (List.mem_singleton.mpr rfl))
          · refine hcompl q ?_
            show q ∈ (deliver_package env ⟨r.truck, r.store⟩ _).truck.packages
            rw [deliver_package_packages]
            exact List.mem_erase_of_ne hqp |>.mpr hq

/-- A truck's turn appends to the log exactly delivery records of this
truck; in particular every id aboard after its loading phase is logged
as delivered by this truck. -/
theorem truck_turn_log (env : Env) (fuel : Nat) (r r' : TruckRun)
    (h : truck_turn env fuel r = some r') :
    (∀ e ∈ r.log, e ∈ r'.log)
    ∧ (∀ q ∈ (load_truck env ⟨r.truck, r.store⟩ r.prio r.nonprio).truck.packages,
        (q, r.truck.truck_id) ∈ r'.log) := by
  unfold truck_turn at h
  dsimp only at h
  set s := load_truck env ⟨r.truck, r.store⟩ r.prio r.nonprio with hs
  cases hda : deliver_all env fuel ⟨s.truck, r.prio, r.nonprio, s.store, r.log⟩ with
  | none => rw [hda] at h; simp at h
  | some r₁ =>
    rw [hda] at h
    dsimp only at h
    cases h
    obtain ⟨hmono, hcompl⟩ := deliver_all_log env fuel _ r₁ hda
    have htid : s.truck.truck_id = r.truck.truck_id :=
      (load_truck_truck_frame env ⟨r.truck, r.store⟩ r.prio r.nonprio).2.1
    exact ⟨fun e he => hmono e he,
      fun q hq => by rw [← htid]; exact hcompl q hq⟩

/-- C5: atomic group admission.  For a non-zero group g with no member
aboard at the start of a pass (the situation of every pass in
`route_packages`): (i) if the manifest size plus the precomputed group
size exceeds 16, no member of g is loaded in the pass; (ii) if any
member of g is loaded, then every member of g in the priority pool is
loaded in the same pass with pickup timestamp equal to the vehicle's
(unchanged) clock — identical for all members; (iii) every pool member
of g is then delivered by that same vehicle during the same turn (it is
logged with this truck's id before the truck returns).  Hypotheses
mirror the run invariants: ids are faithful and non-priority packages
are ungrouped. -/
theorem c5_group_atomicity (env : Env) (s : SimSt) (prio nonprio : List Nat)
    (g : Nat) (fuel : Nat) (log : List (Nat × Nat)) (r' : TruckRun)
    (hg : g ≠ 0)
    (hid : ∀ q, (s.store q).id = q)
    (hnp : ∀ q ∈ nonprio, (s.store q).group = 0)
    (hnone : ∀ q, (s.store q).group = g → q ∉ s.truck.packages) :
    (16 < s.truck.packages.length + env.group_count g →
      ∀ q, (s.store q).group = g →
        q ∉ (load_truck env s prio nonprio).truck.packages)
  ∧ ((∃ q, (s.store q).group = g
        ∧ q ∈ (load_truck env s prio nonprio).truck.packages) →
      ∀ q ∈ prio, (s.store q).group = g →
        q ∈ (load_truck env s prio nonprio).truck.packages
        ∧ ((load_truck env s prio nonprio).store q).time_pickup
            = s.truck.truck_time)
  ∧ (truck_turn env fuel ⟨s.truck, prio, nonprio, s.store, log⟩ = some r' →
      (∃ q, (s.store q).group = g
        ∧ q ∈ (load_truck env s prio nonprio).truck.packages) →
      ∀ q ∈ prio, (s.store q).group = g → (q, s.truck.truck_id) ∈ r'.log) := by
  have hall : (∃ q, (s.store q).group = g
        ∧ q ∈ (load_truck env s prio nonprio).truck.packages) →
      ∀ q ∈ prio, (s.store q).group = g →
        q ∈ (load_truck env s prio nonprio).truck.packages
        ∧ ((load_truck env s prio nonprio).store q).time_pickup
            = s.truck.truck_time := by
    intro ⟨q0, hq0g, hq0in⟩
    rcases load_truck_group_atomic env s prio nonprio g hg hid hnp hnone with hl | hr
    · exact absurd hq0in (hl q0 hq0g)
    · exact hr
  refine ⟨fun hcap =>
    load_truck_group_blocked env s prio nonprio g hg hid hnp hnone hcap,
    hall, ?_⟩
  intro hturn hex q hqp hqg
  obtain ⟨_, hcompl⟩ := truck_turn_log env fuel _ r' hturn
  exact hcompl q ((hall hex) q hqp hqg).1

def env_c5 : Env :=
  ⟨fun i j =>
    if i = 0 ∧ j = 1 then 5 else if i = 0 ∧ j = 2 then 3
    else if i = 2 ∧ j = 1 then 4 else if i = 1 ∧ j = 0 then 5
    else if i = 2 ∧ j = 0 then 3 else if i = 1 ∧ j = 2 then 4 else 0,
   fun gr => if gr = 7 then 2 else 0⟩

def store_c5 : Store := fun n =>
  { id := n, group := if n = 1 ∨ n = 2 then 7 else 0, req_truck := 0,
    time_available := 8, time_pickup := 0, time_delivered := 0,
    loc_id := if n = 1 then 1 else if n = 2 then 2 else 0 }

def sim_c5 : SimSt := ⟨mk_truck 1 8, store_c5⟩

/-- Witness for C5: group 7 = {1, 2}, both members admitted together at
clock 8 and both delivered by truck 1 within the same turn. -/
theorem c5_group_atomicity_witness :
    (1 ∈ (load_truck env_c5 sim_c5 [1, 2] []).truck.packages
      ∧ ((load_truck env_c5 sim_c5 [1, 2] []).store 1).time_pickup = 8)
  ∧ (2 ∈ (load_truck env_c5 sim_c5 [1, 2] []).truck.packages
      ∧ ((load_truck env_c5 sim_c5 [1, 2] []).store 2).time_pickup = 8)
  ∧ ∃ r', truck_turn env_c5 5 ⟨sim_c5.truck, [1, 2], [], sim_c5.store, []⟩ = some r'
      ∧ (1, 1) ∈ r'.log ∧ (2, 1) ∈ r'.log := by
  obtain ⟨r', hr'⟩ : ∃ r',
      truck_turn env_c5 5 ⟨sim_c5.truck, [1, 2], [], sim_c5.store, []⟩ = some r' := by
    cases htt : truck_turn env_c5 5 ⟨sim_c5.truck, [1, 2], [], sim_c5.store, []⟩ with
    | none =>
      have hsome : (truck_turn env_c5 5
          ⟨sim_c5.truck, [1, 2], [], sim_c5.store, []⟩).isSome = true := by decide
      rw [htt] at hsome
      cases hsome
    | some x => exact ⟨x, rfl⟩
  have hC := c5_group_atomicity env_c5 sim_c5 [1, 2] [] 7 5 [] r'
    (by decide) (fun q => rfl) (fun q hq => absurd hq (List.not_mem_nil q))
    (fun q _ hq => absurd hq (List.not_mem_nil q))
  have hex : ∃ q, (sim_c5.store q).group = 7
      ∧ q ∈ (load_truck env_c5 sim_c5 [1, 2] []).truck.packages :=
    ⟨1, by decide, by decide⟩
  have h2 := hC.2.1 hex
  have h3 := hC.2.2 hr' hex
  exact ⟨h2 1 (by decide) (by decide), h2 2 (by decide) (by decide),
    r', hr', h3 1 (by decide) (by decide), h3 2 (by decide) (by decide)⟩

/-! ### C3: timestamp ordering after a completed run -/

theorem load_package_store_other (s : SimSt) (pid q : Nat) (h : q ≠ pid) :
    (load_package s pid).store q = s.store q := by
  rw [load_package_store]
  simp [h]

/-- A loading pass leaves directory entries outside both pools
untouched (all ids loaded come from the pools; the non-priority loop
loads `package.id`, which the id-faithfulness invariant equates with the
pool entry). -/
theorem load_truck_store_offpool (env : Env) (s : SimSt) (prio nonprio : List Nat)
    (hid : ∀ q, (s.store q).id = q) :
    ∀ q, q ∉ prio → q ∉ nonprio →
      (load_truck env s prio nonprio).store q = s.store q := by
  set P : SimSt → Prop := fun x =>
    (∀ q, (x.store q).id = (s.store q).id)
    ∧ (∀ q, q ∉ prio → q ∉ nonprio → x.store q = s.store q) with hP
  have main : P (load_truck env s prio nonprio) := by
    unfold load_truck
    have load_mem : ∀ (a : SimSt) (c : Nat), (c ∈ prio ∨ c ∈ nonprio) →
        P a → P (load_package a c) := by
      intro a c hc ⟨haid, hast⟩
      refine ⟨fun q => (load_package_store_id a c q).trans (haid q), ?_⟩
      intro q h1 h2
      have hqc : q ≠ c := by
        intro hqc
        subst hqc
        rcases hc with h | h
        · exact h1 h
        · exact h2 h
      rw [load_package_store_other a c q hqc]
      exact hast q h1 h2
    have stepP : ∀ a b, b ∈ prio → P a → P (load_priority_step env prio a b) := by
      intro a b hbmem ha
      simp only [load_priority_step]
      split
      next => exact ha
      next =>
        split
        next => exact ha
        next =>
          split
          next =>
            split
            next =>
              split
              next => exact load_mem a b (Or.inl hbmem) ha
              next =>
                split
                next =>
                  refine foldl_inv_mem _ P prio ?_ a ha
                  intro y c hcmem hy
                  dsimp only
                  split
                  next => exact load_mem y c (Or.inl hcmem) hy
                  next => exact hy
                next => exact ha
            next => exact ha
          next => exact ha
    have stepN : ∀ a b, b ∈ nonprio → P a → P (load_nonpriority_step a b) := by
      intro a b hbmem ha
      simp only [load_nonpriority_step]
      split
      next => exact ha
      next =>
        split
        next =>
          have hbid : (a.store b).id = b := (ha.1 b).trans (hid b)
          rw [hbid]
          exact load_mem a b (Or.inr hbmem) ha
        next => exact ha
    exact foldl_inv_mem _ P nonprio stepN _
      (foldl_inv_mem _ P prio stepP s ⟨fun q => rfl, fun q _ _ => rfl⟩)
  exact main.2

/-- When `find_shortest_distance` does not return a negative sentinel,
its result is the id of an aboard package. -/
theorem find_shortest_mem (env : Env) (t : Truck) (ps : Store)
    (h : ¬ find_shortest_distance env t ps < 0) :
    (find_shortest_distance env t ps).toNat ∈ t.packages := by
  rcases fsd_aux_spec env ps t.location_id t.packages 100 (-1) with
    ⟨heq, _⟩ | ⟨l1, q, l2, hsplit, heq, _, _, _⟩
  · have hval : find_shortest_distance env t ps = -1 := heq
    rw [hval] at h
    exact absurd (by decide) h
  · have hval : find_shortest_distance env t ps = (q : Int) := heq
    rw [hval, Int.toNat_natCast, hsplit]
    exact List.mem_append_right _ (List.mem_cons_self q l2)

/-- Invariant of the inner delivery loop: if every aboard package's
pickup timestamp is at or before the truck's clock (which loading from
an empty manifest guarantees), then after the loop finishes the tracked
package satisfies pickup ≤ delivered as soon as it is absent from both
pools; ids, rate are preserved and the manifest is drained. -/
theorem deliver_all_chain (env : Env) (pid : Nat) :
    ∀ (fuel : Nat) (r r' : TruckRun), deliver_all env fuel r = some r' →
      (∀ i j, 0 ≤ env.dist i j) →
      0 ≤ r.truck.rate →
      (∀ q ∈ r.truck.packages, (r.store q).time_pickup ≤ r.truck.truck_time) →
      (pid ∉ r.prio → pid ∉ r.nonprio →
        (r.store pid).time_pickup ≤ (r.store pid).time_delivered) →
      ((∀ q, (r'.store q).id = (r.store q).id)
       ∧ r'.truck.packages = []
       ∧ r'.truck.rate = r.truck.rate
       ∧ (pid ∉ r'.prio → pid ∉ r'.nonprio →
           (r'.store pid).time_pickup ≤ (r'.store pid).time_delivered)) := by
  intro fuel
  induction fuel with
  | zero => intro r r' h; exact absurd h (by simp [deliver_all])
  | succ fuel ih =>
    intro r r' h hd hrate hI1 hP2
    rw [deliver_all] at h
    by_cases hemp : r.truck.packages = []
    · rw [if_pos hemp] at h
      cases h
      exact ⟨fun q => rfl, hemp, rfl, hP2⟩
    · rw [if_neg hemp] at h
      by_cases hneg : find_shortest_distance env r.truck r.store < 0
      · rw [if_pos hneg] at h
        cases h
      · rw [if_neg hneg] at h
        have hpdmem : (find_shortest_distance env r.truck r.store).toNat
            ∈ r.truck.packages := find_shortest_mem env r.truck r.store hneg
        set pd := (find_shortest_distance env r.truck r.store).toNat with hpd
        set s2 := deliver_package env ⟨r.truck, r.store⟩ pd with hs2
        have hrate2 : 0 ≤ s2.truck.rate := by
          rw [hs2, deliver_package_rate]
          exact hrate
        have htime2 : r.truck.truck_time ≤ s2.truck.truck_time := by
          rw [hs2, deliver_package_truck_time]
          exact le_add_of_nonneg_right (div_nonneg (hd _ _) hrate)
        have hI1' : ∀ q ∈ s2.truck.packages,
            (s2.store q).time_pickup ≤ s2.truck.truck_time := by
          intro q hq
          rw [hs2] at hq
          rw [deliver_package_packages] at hq
          have hq' : q ∈ r.truck.packages := List.mem_of_mem_erase hq
          calc (s2.store q).time_pickup
              = (r.store q).time_pickup := by
                rw [hs2]
                exact deliver_package_store_time_pickup env ⟨r.truck, r.store⟩ pd q
            _ ≤ r.truck.truck_time := hI1 q hq'
            _ ≤ s2.truck.truck_time := htime2
        have hP2' :
            pid ∉ (if pd ∈ r.prio then r.prio.erase pd else r.prio) →
            pid ∉ (if pd ∈ r.prio then r.nonprio
              else if pd ∈ r.nonprio then r.nonprio.erase pd else r.nonprio) →
            (s2.store pid).time_pickup ≤ (s2.store pid).time_delivered := by
          intro h1 h2
          by_cases hpdq : pid = pd
          · have hpk : (s2.store pid).time_pickup = (r.store pid).time_pickup := by
              rw [hs2]
              exact deliver_package_store_time_pickup env ⟨r.truck, r.store⟩ pd pid
            have hdl : (s2.store pid).time_delivered = r.truck.truck_time := by
              rw [hs2, hpdq]
              exact deliver_package_store_delivered_self env ⟨r.truck, r.store⟩ pd
            rw [hpk, hdl]
            exact hI1 pid (by rw [hpdq]; exact hpdmem)
          · have hnp1 : pid ∉ r.prio := by
              intro hin
              apply h1
              split
              next => exact (List.mem_erase_of_ne hpdq).mpr hin
              next => exact hin
            have hnp2 : pid ∉ r.nonprio := by
              intro hin
              apply h2
              split
              next => exact hin
              next =>
                split
                next => exact (List.mem_erase_of_ne hpdq).mpr hin
                next => exact hin
            have hpk : (s2.store pid).time_pickup = (r.store pid).time_pickup := by
              rw [hs2]
              exact deliver_package_store_time_pickup env ⟨r.truck, r.store⟩ pd pid
            have hdl : (s2.store pid).time_delivered
                = (r.store pid).time_delivered := by
              rw [hs2]
              exact deliver_package_store_delivered_other env ⟨r.truck, r.store⟩ pd pid hpdq
            rw [hpk, hdl]
            exact hP2 hnp1 hnp2
        obtain ⟨cid, cpk, crate, cP2⟩ := ih _ r' h hd hrate2 hI1' hP2'
        refine ⟨?_, cpk, ?_, cP2⟩
        · intro q
          exact (cid q).trans (deliver_package_store_id env ⟨r.truck, r.store⟩ pd q)
        · exact crate.trans (deliver_package_rate env ⟨r.truck, r.store⟩ pd)

theorem return_to_hub_packages (env : Env) (t : Truck) :
    (return_to_hub env t).packages = t.packages := rfl

theorem return_to_hub_rate (env : Env) (t : Truck) :
    (return_to_hub env t).rate = t.rate := rfl

/-- Invariant of one truck's full turn (load, drain, return): starting
from an empty manifest with a faithful directory, the turn drains the
manifest, preserves id-faithfulness and the rate, and propagates the
pickup ≤ delivered property for any package absent from both pools. -/
theorem truck_turn_chain (env : Env) (pid : Nat) (fuel : Nat) (r r' : TruckRun)
    (h : truck_turn env fuel r = some r')
    (hd : ∀ i j, 0 ≤ env.dist i j)
    (hrate : 0 ≤ r.truck.rate)
    (hemp : r.truck.packages = [])
    (hid : ∀ q, (r.store q).id = q)
    (hP2 : pid ∉ r.prio → pid ∉ r.nonprio →
        (r.store pid).time_pickup ≤ (r.store pid).time_delivered) :
    (∀ q, (r'.store q).id = q)
    ∧ r'.truck.packages = []
    ∧ r'.truck.rate = r.truck.rate
    ∧ (pid ∉ r'.prio → pid ∉ r'.nonprio →
        (r'.store pid).time_pickup ≤ (r'.store pid).time_delivered) := by
  unfold truck_turn at h
  dsimp only at h
  set s := load_truck env ⟨r.truck, r.store⟩ r.prio r.nonprio with hs
  cases hda : deliver_all env fuel ⟨s.truck, r.prio, r.nonprio, s.store, r.log⟩ with
  | none => rw [hda] at h; simp at h
  | some r₁ =>
    rw [hda] at h
    dsimp only at h
    cases h
    obtain ⟨hft, _, hfr, _, _⟩ := load_truck_truck_frame env ⟨r.truck, r.store⟩ r.prio r.nonprio
    have hsid : ∀ q, (s.store q).id = q := by
      intro q
      rw [hs]
      exact ((load_truck_store_frame env ⟨r.truck, r.store⟩ r.prio r.nonprio q).1).trans (hid q)
    have hI1 : ∀ q ∈ s.truck.packages, (s.store q).time_pickup ≤ s.truck.truck_time := by
      intro q hq
      rcases load_truck_pickup_provenance env ⟨r.truck, r.store⟩ r.prio r.nonprio q (by rw [← hs]; exact hq) with hold | hpk
      · rw [show (⟨r.truck, r.store⟩ : SimSt).truck.packages = r.truck.packages from rfl, hemp] at hold
        cases hold
      · rw [hs, hpk, ← hft]
    have hP2s : pid ∉ r.prio → pid ∉ r.nonprio →
        (s.store pid).time_pickup ≤ (s.store pid).time_delivered := by
      intro h1 h2
      rw [hs, load_truck_store_offpool env ⟨r.truck, r.store⟩ r.prio r.nonprio hid pid h1 h2]
      exact hP2 h1 h2
    obtain ⟨cid, cpk, crate, cP2⟩ := deliver_all_chain env pid fuel
      ⟨s.truck, r.prio, r.nonprio, s.store, r.log⟩ r₁ hda hd
      (by show 0 ≤ s.truck.rate; rw [hs, hfr]; exact hrate) hI1 hP2s
    refine ⟨fun q => (cid q).trans (hsid q), ?_, ?_, cP2⟩
    · rw [return_to_hub_packages]
      exact cpk
    · rw [return_to_hub_rate]
      rw [crate]
      show s.truck.rate = r.truck.rate
      rw [hs, hfr]

/-- Invariant of one fleet pass of `route_packages`. -/
theorem route_pass_chain (env : Env) (pid : Nat) (fuel : Nat) :
    ∀ (trucks : List Truck) (prio nonprio : List Nat) (store : Store)
      (log : List (Nat × Nat)) (f' : FleetSt),
      route_pass env fuel trucks prio nonprio store log = some f' →
      (∀ i j, 0 ≤ env.dist i j) →
      (∀ t ∈ trucks, 0 ≤ t.rate ∧ t.packages = []) →
      (∀ q, (store q).id = q) →
      (pid ∉ prio → pid ∉ nonprio →
        (store pid).time_pickup ≤ (store pid).time_delivered) →
      ((∀ t ∈ f'.trucks, 0 ≤ t.rate ∧ t.packages = [])
       ∧ (∀ q, (f'.store q).id = q)
       ∧ (pid ∉ f'.prio → pid ∉ f'.nonprio →
           (f'.store pid).time_pickup ≤ (f'.store pid).time_delivered)) := by
  intro trucks
  induction trucks with
  | nil =>
    intro prio nonprio store log f' h hd htr hid hP2
    rw [route_pass] at h
    cases h
    exact ⟨fun t ht => absurd ht (List.not_mem_nil t), hid, hP2⟩
  | cons t ts ih =>
    intro prio nonprio store log f' h hd htr hid hP2
    rw [route_pass] at h
    cases htt : truck_turn env fuel ⟨t, prio, nonprio, store, log⟩ with
    | none => rw [htt] at h; cases h
    | some rt =>
      rw [htt] at h
      dsimp only at h
      cases hrp : route_pass env fuel ts rt.prio rt.nonprio rt.store rt.log with
      | none => rw [hrp] at h; cases h
      | some f₂ =>
        rw [hrp] at h
        dsimp only at h
        cases h
        obtain ⟨hrate, hempt⟩ := htr t (List.mem_cons_self t ts)
        obtain ⟨cid, cpk, crate, cP2⟩ :=
          truck_turn_chain env pid fuel ⟨t, prio, nonprio, store, log⟩ rt htt
            hd hrate hempt hid hP2
        obtain ⟨c2tr, c2id, c2P2⟩ := ih rt.prio rt.nonprio rt.store rt.log f₂
          hrp hd (fun t' ht' => htr t' (List.mem_cons_of_mem t ht')) cid cP2
        refine ⟨?_, c2id, c2P2⟩
        intro t' ht'
        rcases List.mem_cons.mp ht' with ht' | ht'
        · rw [ht']
          exact ⟨by rw [crate]; exact hrate, cpk⟩
        · exact c2tr t' ht'

/-- Invariant of the whole dispatch loop: a completed run has empty
pools and the tracked package satisfies pickup ≤ delivered. -/
theorem route_packages_chain (env : Env) (pid : Nat) :
    ∀ (fuel : Nat) (f f' : FleetSt),
      route_packages env fuel f = some f' →
      (∀ i j, 0 ≤ env.dist i j) →
      (∀ t ∈ f.trucks, 0 ≤ t.rate ∧ t.packages = []) →
      (∀ q, (f.store q).id = q) →
      (pid ∉ f.prio → pid ∉ f.nonprio →
        (f.store pid).time_pickup ≤ (f.store pid).time_delivered) →
      (f'.prio = [] ∧ f'.nonprio = []
       ∧ (f'.store pid).time_pickup ≤ (f'.store pid).time_delivered) := by
  intro fuel
  induction fuel with
  | zero => intro f f' h; exact absurd h (by simp [route_packages])
  | succ fuel ih =>
    intro f f' h hd htr hid hP2
    rw [route_packages] at h
    by_cases hfin : f.prio = [] ∧ f.nonprio = []
    · rw [if_pos hfin] at h
      cases h
      exact ⟨hfin.1, hfin.2,
        hP2 (by rw [hfin.1]; exact List.not_mem_nil pid)
          (by rw [hfin.2]; exact List.not_mem_nil pid)⟩
    · rw [if_neg hfin] at h
      cases hrp : route_pass env fuel f.trucks f.prio f.nonprio f.store f.log with
      | none => rw [hrp] at h; cases h
      | some f₂ =>
        rw [hrp] at h
        obtain ⟨c2tr, c2id, c2P2⟩ := route_pass_chain env pid fuel f.trucks
          f.prio f.nonprio f.store f.log f₂ hrp hd htr hid hP2
        exact ih f₂ f' h hd c2tr c2id c2P2

/-- C3 (amended): after `route_packages` completes (nonnegative distance
table, vehicles with nonnegative rate and empty initial manifests,
id-faithful directory), every package from the pending pools satisfies
delivered timestamp ≥ pickup timestamp.  The claimed strict chain
delivered > pickup > available is false on the code: pickup = available
when a package is loaded exactly at its release time, delivered = pickup
for the first delivery of each trip (the delivered stamp is taken before
the leg advance, see C2), and pickup < available for group members
admitted before their release (see `c3_strict_chain_counterexample`). -/
theorem c3_timestamps_amended (env : Env) (fuel : Nat) (f f' : FleetSt) (pid : Nat)
    (hrun : route_packages env fuel f = some f')
    (hd : ∀ i j, 0 ≤ env.dist i j)
    (htrucks : ∀ t ∈ f.trucks, 0 ≤ t.rate ∧ t.packages = [])
    (hid : ∀ q, (f.store q).id = q)
    (hpool : pid ∈ f.prio ∨ pid ∈ f.nonprio) :
    (f'.store pid).time_pickup ≤ (f'.store pid).time_delivered := by
  refine (route_packages_chain env pid fuel f f' hrun hd htrucks hid ?_).2.2
  intro h1 h2
  rcases hpool with h | h
  · exact absurd h h1
  · exact absurd h h2

def env_c3 : Env :=
  ⟨fun i j =>
    if i = 0 ∧ j = 1 then 5 else if i = 0 ∧ j = 2 then 3
    else if i = 2 ∧ j = 1 then 4 else if i = 1 ∧ j = 0 then 5
    else if i = 2 ∧ j = 0 then 3 else if i = 1 ∧ j = 2 then 4 else 0,
   fun gr => if gr = 7 then 2 else 0⟩

def store_c3 : Store := fun n =>
  { id := n, group := if n = 1 ∨ n = 2 then 7 else 0, req_truck := 0,
    time_available := if n = 2 then 10 else 8, time_pickup := 0,
    time_delivered := 0,
    loc_id := if n = 1 then 1 else if n = 2 then 2 else 0 }

def fleet_c3 : FleetSt :=
  ⟨[mk_truck 1 8, mk_truck 2 (9 + 1/12)], [1, 2], [], store_c3, []⟩

/-- C3 (counterexample): this run of `route_packages` completes (the
pools end empty), yet package 2 finishes with available = 10,
pickup = 8 and delivered = 8: both strict inequalities of the claimed
chain delivered > pickup > available fail (pickup even precedes
availability, because package 2 was pulled in by group admission). -/
theorem c3_strict_chain_counterexample :
    (route_packages env_c3 5 fleet_c3).map
        (fun f => ((f.store 2).time_available, (f.store 2).time_pickup,
          (f.store 2).time_delivered))
      = some (10, 8, 8)
  ∧ (route_packages env_c3 5 fleet_c3).map (fun f => (f.prio, f.nonprio))
      = some ([], [])
  ∧ ¬ ((8 : ℚ) > 8 ∧ (8 : ℚ) > 10) :=
  ⟨by decide, by decide, by decide⟩

/-- Witness for C3 (amended) on the same concrete completed run:
package 1 ends with pickup ≤ delivered. -/
theorem c3_timestamps_amended_witness :
    ∃ f', route_packages env_c3 5 fleet_c3 = some f'
      ∧ (f'.store 1).time_pickup ≤ (f'.store 1).time_delivered := by
  obtain ⟨f', hf'⟩ : ∃ f', route_packages env_c3 5 fleet_c3 = some f' := by
    cases hrr : route_packages env_c3 5 fleet_c3 with
    | none =>
      have hsome : (route_packages env_c3 5 fleet_c3).isSome = true := by decide
      rw [hrr] at hsome
      cases hsome
    | some x => exact ⟨x, rfl⟩
  refine ⟨f', hf', c3_timestamps_amended env_c3 5 fleet_c3 f' 1 hf' ?_ ?_ ?_ ?_⟩
  · intro i j
    show (0:ℚ) ≤ env_c3.dist i j
    unfold env_c3
    dsimp only
    split
    · norm_num
    · split
      · norm_num
      · split
        · norm_num
        · split
          · norm_num
          · split
            · norm_num
            · split
              · norm_num
              · exact le_refl 0
  · intro t ht
    rcases List.mem_cons.mp ht with ht | ht
    · rw [ht]
      exact ⟨by norm_num [mk_truck], rfl⟩
    · rcases List.mem_cons.mp ht with ht | ht
      · rw [ht]
        exact ⟨by norm_num [mk_truck], rfl⟩
      · exact absurd ht (List.not_mem_nil t)
  · intro q
    rfl
  · exact Or.inl (by decide)
